import Mathlib

/-!
A verification development for the ncurses terminal UI module
(`src/ncurses_ui.cc`): a shallow embedding in Lean 4 of its palette
manager, line renderer, escape-sequence input decoder, info-box
placement and menu layout, together with theorems about them.

Machine integers are modelled as `Nat`/`Int` (C `int` arithmetic never
overflows on the inputs considered; where C converts to an unsigned
type the conversion is written out as `% 2^32`).  C integer division,
which truncates toward zero, is written `Int.tdiv`.
-/

set_option maxRecDepth 8192

namespace NCursesUI

/-! ## Colors and the palette manager

Embeds `NCursesUI::Palette` (`get_color`, `get_color_pair`,
`set_change_colors`) and the `builtin_colors` table.  The ncurses
capability `can_change_color()` and the terminal slot count `COLORS`
are environment inputs and appear as explicit parameters.  `HashMap`s
are modelled as association lists (`lookup` = first match), which is
faithful: the code only inserts keys that are not present.
-/

/-- `Kakoune::Color`: default, one of 16 named colors, or 24-bit RGB. -/
inductive Color where
  | default | black | red | green | yellow | blue | magenta | cyan | white
  | brightBlack | brightRed | brightGreen | brightYellow | brightBlue
  | brightMagenta | brightCyan | brightWhite
  | rgb (r g b : Nat)
deriving DecidableEq, Repr

/-- Association-list lookup, first match wins (models `HashMap::find`). -/
def alookup {a : Type} [DecidableEq a] {b : Type} : List (a × b) → a → Option b
  | [], _ => none
  | (k, v) :: rest, k2 => if k = k2 then some v else alookup rest k2

/-- `NCursesUI::Palette::default_colors`: the pre-registered named colors. -/
def default_colors : List (Color × Int) :=
  [ (Color.default, -1), (Color.black, 0), (Color.red, 1), (Color.green, 2),
    (Color.yellow, 3), (Color.blue, 4), (Color.magenta, 5), (Color.cyan, 6),
    (Color.white, 7), (Color.brightBlack, 8), (Color.brightRed, 9),
    (Color.brightGreen, 10), (Color.brightYellow, 11), (Color.brightBlue, 12),
    (Color.brightMagenta, 13), (Color.brightCyan, 14), (Color.brightWhite, 15) ]

/-- The 256-entry `builtin_colors` table: 16 base colors, the 6x6x6 cube,
and the 24-step grayscale ramp, copied verbatim from the source. -/
def builtin_colors : List (Nat × Nat × Nat) :=
  [
    (0x00, 0x00, 0x00), (0x80, 0x00, 0x00), (0x00, 0x80, 0x00), (0x80, 0x80, 0x00),
    (0x00, 0x00, 0x80), (0x80, 0x00, 0x80), (0x00, 0x80, 0x80), (0xc0, 0xc0, 0xc0),
    (0x80, 0x80, 0x80), (0xff, 0x00, 0x00), (0x00, 0xff, 0x00), (0xff, 0xff, 0x00),
    (0x00, 0x00, 0xff), (0xff, 0x00, 0xff), (0x00, 0xff, 0xff), (0xff, 0xff, 0xff),
    (0x00, 0x00, 0x00), (0x00, 0x00, 0x5f), (0x00, 0x00, 0x87), (0x00, 0x00, 0xaf),
    (0x00, 0x00, 0xd7), (0x00, 0x00, 0xff), (0x00, 0x5f, 0x00), (0x00, 0x5f, 0x5f),
    (0x00, 0x5f, 0x87), (0x00, 0x5f, 0xaf), (0x00, 0x5f, 0xd7), (0x00, 0x5f, 0xff),
    (0x00, 0x87, 0x00), (0x00, 0x87, 0x5f), (0x00, 0x87, 0x87), (0x00, 0x87, 0xaf),
    (0x00, 0x87, 0xd7), (0x00, 0x87, 0xff), (0x00, 0xaf, 0x00), (0x00, 0xaf, 0x5f),
    (0x00, 0xaf, 0x87), (0x00, 0xaf, 0xaf), (0x00, 0xaf, 0xd7), (0x00, 0xaf, 0xff),
    (0x00, 0xd7, 0x00), (0x00, 0xd7, 0x5f), (0x00, 0xd7, 0x87), (0x00, 0xd7, 0xaf),
    (0x00, 0xd7, 0xd7), (0x00, 0xd7, 0xff), (0x00, 0xff, 0x00), (0x00, 0xff, 0x5f),
    (0x00, 0xff, 0x87), (0x00, 0xff, 0xaf), (0x00, 0xff, 0xd7), (0x00, 0xff, 0xff),
    (0x5f, 0x00, 0x00), (0x5f, 0x00, 0x5f), (0x5f, 0x00, 0x87), (0x5f, 0x00, 0xaf),
    (0x5f, 0x00, 0xd7), (0x5f, 0x00, 0xff), (0x5f, 0x5f, 0x00), (0x5f, 0x5f, 0x5f),
    (0x5f, 0x5f, 0x87), (0x5f, 0x5f, 0xaf), (0x5f, 0x5f, 0xd7), (0x5f, 0x5f, 0xff),
    (0x5f, 0x87, 0x00), (0x5f, 0x87, 0x5f), (0x5f, 0x87, 0x87), (0x5f, 0x87, 0xaf),
    (0x5f, 0x87, 0xd7), (0x5f, 0x87, 0xff), (0x5f, 0xaf, 0x00), (0x5f, 0xaf, 0x5f),
    (0x5f, 0xaf, 0x87), (0x5f, 0xaf, 0xaf), (0x5f, 0xaf, 0xd7), (0x5f, 0xaf, 0xff),
    (0x5f, 0xd7, 0x00), (0x5f, 0xd7, 0x5f), (0x5f, 0xd7, 0x87), (0x5f, 0xd7, 0xaf),
    (0x5f, 0xd7, 0xd7), (0x5f, 0xd7, 0xff), (0x5f, 0xff, 0x00), (0x5f, 0xff, 0x5f),
    (0x5f, 0xff, 0x87), (0x5f, 0xff, 0xaf), (0x5f, 0xff, 0xd7), (0x5f, 0xff, 0xff),
    (0x87, 0x00, 0x00), (0x87, 0x00, 0x5f), (0x87, 0x00, 0x87), (0x87, 0x00, 0xaf),
    (0x87, 0x00, 0xd7), (0x87, 0x00, 0xff), (0x87, 0x5f, 0x00), (0x87, 0x5f, 0x5f),
    (0x87, 0x5f, 0x87), (0x87, 0x5f, 0xaf), (0x87, 0x5f, 0xd7), (0x87, 0x5f, 0xff),
    (0x87, 0x87, 0x00), (0x87, 0x87, 0x5f), (0x87, 0x87, 0x87), (0x87, 0x87, 0xaf),
    (0x87, 0x87, 0xd7), (0x87, 0x87, 0xff), (0x87, 0xaf, 0x00), (0x87, 0xaf, 0x5f),
    (0x87, 0xaf, 0x87), (0x87, 0xaf, 0xaf), (0x87, 0xaf, 0xd7), (0x87, 0xaf, 0xff),
    (0x87, 0xd7, 0x00), (0x87, 0xd7, 0x5f), (0x87, 0xd7, 0x87), (0x87, 0xd7, 0xaf),
    (0x87, 0xd7, 0xd7), (0x87, 0xd7, 0xff), (0x87, 0xff, 0x00), (0x87, 0xff, 0x5f),
    (0x87, 0xff, 0x87), (0x87, 0xff, 0xaf), (0x87, 0xff, 0xd7), (0x87, 0xff, 0xff),
    (0xaf, 0x00, 0x00), (0xaf, 0x00, 0x5f), (0xaf, 0x00, 0x87), (0xaf, 0x00, 0xaf),
    (0xaf, 0x00, 0xd7), (0xaf, 0x00, 0xff), (0xaf, 0x5f, 0x00), (0xaf, 0x5f, 0x5f),
    (0xaf, 0x5f, 0x87), (0xaf, 0x5f, 0xaf), (0xaf, 0x5f, 0xd7), (0xaf, 0x5f, 0xff),
    (0xaf, 0x87, 0x00), (0xaf, 0x87, 0x5f), (0xaf, 0x87, 0x87), (0xaf, 0x87, 0xaf),
    (0xaf, 0x87, 0xd7), (0xaf, 0x87, 0xff), (0xaf, 0xaf, 0x00), (0xaf, 0xaf, 0x5f),
    (0xaf, 0xaf, 0x87), (0xaf, 0xaf, 0xaf), (0xaf, 0xaf, 0xd7), (0xaf, 0xaf, 0xff),
    (0xaf, 0xd7, 0x00), (0xaf, 0xd7, 0x5f), (0xaf, 0xd7, 0x87), (0xaf, 0xd7, 0xaf),
    (0xaf, 0xd7, 0xd7), (0xaf, 0xd7, 0xff), (0xaf, 0xff, 0x00), (0xaf, 0xff, 0x5f),
    (0xaf, 0xff, 0x87), (0xaf, 0xff, 0xaf), (0xaf, 0xff, 0xd7), (0xaf, 0xff, 0xff),
    (0xd7, 0x00, 0x00), (0xd7, 0x00, 0x5f), (0xd7, 0x00, 0x87), (0xd7, 0x00, 0xaf),
    (0xd7, 0x00, 0xd7), (0xd7, 0x00, 0xff), (0xd7, 0x5f, 0x00), (0xd7, 0x5f, 0x5f),
    (0xd7, 0x5f, 0x87), (0xd7, 0x5f, 0xaf), (0xd7, 0x5f, 0xd7), (0xd7, 0x5f, 0xff),
    (0xd7, 0x87, 0x00), (0xd7, 0x87, 0x5f), (0xd7, 0x87, 0x87), (0xd7, 0x87, 0xaf),
    (0xd7, 0x87, 0xd7), (0xd7, 0x87, 0xff), (0xd7, 0xaf, 0x00), (0xd7, 0xaf, 0x5f),
    (0xd7, 0xaf, 0x87), (0xd7, 0xaf, 0xaf), (0xd7, 0xaf, 0xd7), (0xd7, 0xaf, 0xff),
    (0xd7, 0xd7, 0x00), (0xd7, 0xd7, 0x5f), (0xd7, 0xd7, 0x87), (0xd7, 0xd7, 0xaf),
    (0xd7, 0xd7, 0xd7), (0xd7, 0xd7, 0xff), (0xd7, 0xff, 0x00), (0xd7, 0xff, 0x5f),
    (0xd7, 0xff, 0x87), (0xd7, 0xff, 0xaf), (0xd7, 0xff, 0xd7), (0xd7, 0xff, 0xff),
    (0xff, 0x00, 0x00), (0xff, 0x00, 0x5f), (0xff, 0x00, 0x87), (0xff, 0x00, 0xaf),
    (0xff, 0x00, 0xd7), (0xff, 0x00, 0xff), (0xff, 0x5f, 0x00), (0xff, 0x5f, 0x5f),
    (0xff, 0x5f, 0x87), (0xff, 0x5f, 0xaf), (0xff, 0x5f, 0xd7), (0xff, 0x5f, 0xff),
    (0xff, 0x87, 0x00), (0xff, 0x87, 0x5f), (0xff, 0x87, 0x87), (0xff, 0x87, 0xaf),
    (0xff, 0x87, 0xd7), (0xff, 0x87, 0xff), (0xff, 0xaf, 0x00), (0xff, 0xaf, 0x5f),
    (0xff, 0xaf, 0x87), (0xff, 0xaf, 0xaf), (0xff, 0xaf, 0xd7), (0xff, 0xaf, 0xff),
    (0xff, 0xd7, 0x00), (0xff, 0xd7, 0x5f), (0xff, 0xd7, 0x87), (0xff, 0xd7, 0xaf),
    (0xff, 0xd7, 0xd7), (0xff, 0xd7, 0xff), (0xff, 0xff, 0x00), (0xff, 0xff, 0x5f),
    (0xff, 0xff, 0x87), (0xff, 0xff, 0xaf), (0xff, 0xff, 0xd7), (0xff, 0xff, 0xff),
    (0x08, 0x08, 0x08), (0x12, 0x12, 0x12), (0x1c, 0x1c, 0x1c), (0x26, 0x26, 0x26),
    (0x30, 0x30, 0x30), (0x3a, 0x3a, 0x3a), (0x44, 0x44, 0x44), (0x4e, 0x4e, 0x4e),
    (0x58, 0x58, 0x58), (0x60, 0x60, 0x60), (0x66, 0x66, 0x66), (0x76, 0x76, 0x76),
    (0x80, 0x80, 0x80), (0x8a, 0x8a, 0x8a), (0x94, 0x94, 0x94), (0x9e, 0x9e, 0x9e),
    (0xa8, 0xa8, 0xa8), (0xb2, 0xb2, 0xb2), (0xbc, 0xbc, 0xbc), (0xc6, 0xc6, 0xc6),
    (0xd0, 0xd0, 0xd0), (0xda, 0xda, 0xda), (0xe4, 0xe4, 0xe4), (0xee, 0xee, 0xee)
  ]

/-- `template<typename T> T sq(T x) { return x * x; }` at `Int`. -/
def sq (x : Int) : Int := x * x

/-- The squared Euclidean RGB distance computed inside `get_color`:
`sq(color.r - col.r) + sq(color.g - col.g) + sq(color.b - col.b)`. -/
def colorDist (r g b : Nat) (e : Nat × Nat × Nat) : Int :=
  sq ((r : Int) - (e.1 : Int)) + sq ((g : Int) - (e.2.1 : Int)) + sq ((b : Int) - (e.2.2 : Int))

/-- Distance from `(r,g,b)` to table entry `i` (`builtin_colors[i]`). -/
def distAt (r g b i : Nat) : Int := colorDist r g b (builtin_colors.getD i (0, 0, 0))

/-- The scan `for (int i = 0; i < min(256, COLORS); ++i)` of `get_color`,
over the remaining index list, carrying `(lowestDist, closestCol)`.
An index updates the pair exactly when its distance is strictly lower. -/
def quantLoop (r g b : Nat) : List Nat → Int × Int → Int × Int
  | [], acc => acc
  | i :: is, (lowest, closest) =>
    let dist := distAt r g b i
    if dist < lowest then quantLoop r g b is (dist, i)
    else quantLoop r g b is (lowest, closest)

/-- The quantization branch of `get_color`: scan the first
`min 256 COLORS` builtin entries starting from
`lowestDist = INT_MAX, closestCol = -1`. -/
def quantize (colorsCap r g b : Nat) : Int :=
  (quantLoop r g b (List.range (min 256 colorsCap)) (2147483647, -1)).2

/-- The palette state: `m_colors`, `m_colorpairs`, `m_next_color`,
`m_next_pair`, `m_change_colors`. -/
structure Palette where
  colors : List (Color × Int)
  colorpairs : List ((Color × Color) × Int)
  next_color : Int
  next_pair : Int
  change_colors : Bool
deriving DecidableEq, Repr

/-- RGB components of a color (the `color.r/g/b` union fields; the code
reads them only under `kak_assert(color.color == Color::RGB)`). -/
def Color.rPart : Color → Nat | .rgb r _ _ => r | _ => 0
def Color.gPart : Color → Nat | .rgb _ g _ => g | _ => 0
def Color.bPart : Color → Nat | .rgb _ _ b => b | _ => 0

/-- `NCursesUI::Palette::get_color`.  `can_change` is the ncurses
`can_change_color()` capability, `colorsCap` is `COLORS`.  The
`init_color` terminal side effect is out-of-band I/O and has no
observable state here beyond the cached slot. -/
def get_color (can_change : Bool) (colorsCap : Nat) (p : Palette) (color : Color) :
    Int × Palette :=
  match alookup p.colors color with
  | some v => (v, p)
  | none =>
    if p.change_colors ∧ can_change ∧ colorsCap > 16 then
      let nc : Int := if p.next_color > (colorsCap : Int) then 16 else p.next_color
      (nc, { p with colors := (color, nc) :: p.colors, next_color := nc + 1 })
    else
      (quantize colorsCap color.rPart color.gPart color.bPart, p)

/-- `NCursesUI::Palette::get_color_pair`: keyed on the `(fg, bg)` color
pair only.  On a miss, resolves both colors (which may allocate), caches
the next pair index and post-increments it. -/
def get_color_pair (can_change : Bool) (colorsCap : Nat) (p : Palette)
    (fg bg : Color) : Int × Palette :=
  match alookup p.colorpairs (fg, bg) with
  | some v => (v, p)
  | none =>
    let p1 := (get_color can_change colorsCap p fg).2
    let p2 := (get_color can_change colorsCap p1 bg).2
    (p2.next_pair,
     { p2 with colorpairs := ((fg, bg), p2.next_pair) :: p2.colorpairs,
               next_pair := p2.next_pair + 1 })

/-- `NCursesUI::Palette::set_change_colors`.  The palette-reset escape
sequence written to stdout is out-of-band I/O. -/
def set_change_colors (can_change : Bool) (p : Palette) (change_colors : Bool) :
    Bool × Palette :=
  if can_change ∧ p.change_colors ≠ change_colors then
    (true, { colors := default_colors, colorpairs := [], next_color := 16,
             next_pair := 1, change_colors := change_colors })
  else
    (false, { p with change_colors := change_colors })

/-! ## Palette theorems (claims C9, C4, C3) -/

lemma alookup_default_colors_rgb (r g b : Nat) :
    alookup default_colors (Color.rgb r g b) = none := by
  simp [default_colors, alookup]

/-- C9: `resolve_color` is idempotent and the mapping is stable: a second
`get_color` call with the same `Color` (no intervening reset) returns the
same palette index and leaves the palette unchanged, and likewise a second
`get_color_pair` call with the same `(fg, bg)` pair returns the same
color-pair index and leaves the palette unchanged. -/
theorem resolve_color_and_pair_idempotent (can_change : Bool) (colorsCap : Nat)
    (p : Palette) (c fg bg : Color) :
    get_color can_change colorsCap (get_color can_change colorsCap p c).2 c
      = get_color can_change colorsCap p c ∧
    get_color_pair can_change colorsCap
        (get_color_pair can_change colorsCap p fg bg).2 fg bg
      = get_color_pair can_change colorsCap p fg bg := by
  constructor
  · cases h : alookup p.colors c with
    | some v => simp [get_color, h]
    | none =>
      by_cases hd : (p.change_colors = true) ∧ can_change = true ∧ colorsCap > 16
      · simp [get_color, h, hd, alookup]
      · simp [get_color, h, hd]
  · cases h : alookup p.colorpairs (fg, bg) with
    | some v => simp [get_color_pair, h]
    | none => simp [get_color_pair, h, alookup]

/-- C4: `set_change_colors`, when the terminal supports palette redefinition
and the value changes, clears both caches (the color cache back to the
pre-registered named colors), resets the dynamic cursor to 16 and the pair
cursor to 1, and reports a reset; in every other case it reports no reset
and leaves both caches untouched.  Consequently, on the reset state with
dynamic allocation on and more than 16 slots, the next two distinct new RGB
colors receive slots 16 and 17. -/
theorem set_change_colors_reset_spec (can_change : Bool) (p : Palette) (nb : Bool)
    (cap : Nat) (r1 g1 b1 r2 g2 b2 : Nat) :
    (can_change = true → p.change_colors ≠ nb →
      set_change_colors can_change p nb =
        (true, ⟨default_colors, [], 16, 1, nb⟩)) ∧
    (¬ (can_change = true ∧ p.change_colors ≠ nb) →
      set_change_colors can_change p nb = (false, { p with change_colors := nb })) ∧
    (cap > 16 → Color.rgb r1 g1 b1 ≠ Color.rgb r2 g2 b2 →
      (get_color true cap ⟨default_colors, [], 16, 1, true⟩ (Color.rgb r1 g1 b1)).1 = 16 ∧
      (get_color true cap
          (get_color true cap ⟨default_colors, [], 16, 1, true⟩ (Color.rgb r1 g1 b1)).2
          (Color.rgb r2 g2 b2)).1 = 17) := by
  refine ⟨fun hc hne => ?_, fun hn => ?_, fun hcap hne => ?_⟩
  · simp [set_change_colors, hc, hne]
  · simp only [set_change_colors]
    rw [if_neg (by tauto)]
  · have h1 : alookup default_colors (Color.rgb r1 g1 b1) = none :=
      alookup_default_colors_rgb r1 g1 b1
    have hcond : ((true : Bool) = true) ∧ ((true : Bool) = true) ∧ cap > 16 :=
      ⟨rfl, rfl, hcap⟩
    have hnc : ¬ ((17 : Int) > (cap : Int)) := by
      have : (17 : Int) ≤ (cap : Int) := by exact_mod_cast hcap
      omega
    have hstep : get_color true cap ⟨default_colors, [], 16, 1, true⟩ (Color.rgb r1 g1 b1)
        = (16, ⟨(Color.rgb r1 g1 b1, 16) :: default_colors, [], 17, 1, true⟩) := by
      simp [get_color, h1, hcap]
    have h2 : alookup ((Color.rgb r1 g1 b1, (16 : Int)) :: default_colors)
        (Color.rgb r2 g2 b2) = none := by
      simp [alookup, alookup_default_colors_rgb, hne]
    rw [hstep]
    exact ⟨rfl, by simp [get_color, h2, hcap, hnc]⟩

/-- The loop invariant for `quantLoop` over the index range
`[a, a + n)`: the final `lowestDist` is a lower bound of all scanned
distances and never increases; and either the accumulator is untouched, or
`closestCol` is the first scanned index realizing the final distance. -/
lemma quantLoop_inv (r g b : Nat) :
    ∀ (n a : Nat) (l c : Int),
      (quantLoop r g b (List.range' a n) (l, c)).1 ≤ l ∧
      (∀ j : Nat, a ≤ j → j < a + n →
        (quantLoop r g b (List.range' a n) (l, c)).1 ≤ distAt r g b j) ∧
      (((quantLoop r g b (List.range' a n) (l, c)).1 = l ∧
        (quantLoop r g b (List.range' a n) (l, c)).2 = c) ∨
       (∃ j : Nat, a ≤ j ∧ j < a + n ∧
         (quantLoop r g b (List.range' a n) (l, c)).2 = (j : Int) ∧
         (quantLoop r g b (List.range' a n) (l, c)).1 = distAt r g b j ∧
         (quantLoop r g b (List.range' a n) (l, c)).1 < l ∧
         ∀ k : Nat, a ≤ k → k < j →
           distAt r g b k > (quantLoop r g b (List.range' a n) (l, c)).1)) := by
  intro n
  induction n with
  | zero =>
    intro a l c
    refine ⟨le_refl _, fun j hj hj2 => absurd hj2 (by omega), Or.inl ⟨rfl, rfl⟩⟩
  | succ n ih =>
    intro a l c
    have hr : List.range' a (n + 1) = a :: List.range' (a + 1) n := List.range'_succ a n 1
    by_cases h : distAt r g b a < l
    · have hq : quantLoop r g b (List.range' a (n + 1)) (l, c)
          = quantLoop r g b (List.range' (a + 1) n) (distAt r g b a, (a : Int)) := by
        rw [hr]; simp [quantLoop, h]
      obtain ⟨ih1, ih2, ih3⟩ := ih (a + 1) (distAt r g b a) (a : Int)
      rw [hq]
      refine ⟨le_trans ih1 (le_of_lt h), fun j hj hj2 => ?_, ?_⟩
      · rcases Nat.eq_or_lt_of_le hj with hj | hj
        · subst hj; exact ih1
        · exact ih2 j hj (by omega)
      · rcases ih3 with ⟨he1, he2⟩ | ⟨j, hj1, hj2, hj3, hj4, hj5, hj6⟩
        · exact Or.inr ⟨a, le_refl a, by omega, he2, by rw [he1], by rw [he1]; exact h,
            fun k hk1 hk2 => absurd hk2 (by omega)⟩
        · refine Or.inr ⟨j, by omega, by omega, hj3, hj4, lt_trans hj5 h,
            fun k hk1 hk2 => ?_⟩
          rcases Nat.eq_or_lt_of_le hk1 with hk | hk
          · subst hk; omega
          · exact hj6 k hk hk2
    · have hq : quantLoop r g b (List.range' a (n + 1)) (l, c)
          = quantLoop r g b (List.range' (a + 1) n) (l, c) := by
        rw [hr]; simp [quantLoop, h]
      obtain ⟨ih1, ih2, ih3⟩ := ih (a + 1) l c
      rw [hq]
      refine ⟨ih1, fun j hj hj2 => ?_, ?_⟩
      · rcases Nat.eq_or_lt_of_le hj with hj | hj
        · subst hj; omega
        · exact ih2 j hj (by omega)
      · rcases ih3 with he | ⟨j, hj1, hj2, hj3, hj4, hj5, hj6⟩
        · exact Or.inl he
        · refine Or.inr ⟨j, by omega, by omega, hj3, hj4, hj5, fun k hk1 hk2 => ?_⟩
          rcases Nat.eq_or_lt_of_le hk1 with hk | hk
          · subst hk; omega
          · exact hj6 k hk hk2

/-- C3: with dynamic allocation unavailable, `get_color` on an uncached RGB
color returns an in-range index of the builtin table (strictly below the
scanned prefix length `min 256 COLORS`, hence below 256 = the table size)
whose distance to the requested 8-bit triple is minimal over the scanned
prefix, and on ties the lowest such index. -/
theorem get_color_quantize_minimal (can_change : Bool) (cap r g b : Nat) (p : Palette)
    (hmiss : alookup p.colors (Color.rgb r g b) = none)
    (hdyn : ¬ ((p.change_colors = true) ∧ can_change = true ∧ cap > 16))
    (hcap : 1 ≤ cap) (hr : r < 256) (hg : g < 256) (hb : b < 256) :
    builtin_colors.length = 256 ∧
    0 ≤ (get_color can_change cap p (Color.rgb r g b)).1 ∧
    (get_color can_change cap p (Color.rgb r g b)).1 < (min 256 cap : Nat) ∧
    (get_color can_change cap p (Color.rgb r g b)).1 < 256 ∧
    (∀ j : Nat, j < min 256 cap →
      distAt r g b (get_color can_change cap p (Color.rgb r g b)).1.toNat
        ≤ distAt r g b j) ∧
    (∀ j : Nat, j < min 256 cap →
      distAt r g b j = distAt r g b (get_color can_change cap p (Color.rgb r g b)).1.toNat →
      (get_color can_change cap p (Color.rgb r g b)).1 ≤ (j : Int)) := by
  have hlen : builtin_colors.length = 256 := by rfl
  have hres : (get_color can_change cap p (Color.rgb r g b)).1 = quantize cap r g b := by
    simp [get_color, hmiss, hdyn, Color.rPart, Color.gPart, Color.bPart]
  have hd0 : distAt r g b 0 < 2147483647 := by
    have h0 : builtin_colors.getD 0 (0, 0, 0) = (0, 0, 0) := rfl
    have hr2 : (r : Int) ≤ 255 := by exact_mod_cast Nat.lt_succ_iff.mp hr
    have hg2 : (g : Int) ≤ 255 := by exact_mod_cast Nat.lt_succ_iff.mp hg
    have hb2 : (b : Int) ≤ 255 := by exact_mod_cast Nat.lt_succ_iff.mp hb
    have hr0 : (0 : Int) ≤ (r : Int) := Int.ofNat_nonneg r
    have hg0 : (0 : Int) ≤ (g : Int) := Int.ofNat_nonneg g
    have hb0 : (0 : Int) ≤ (b : Int) := Int.ofNat_nonneg b
    simp only [distAt, colorDist, h0, sq, Nat.cast_zero, sub_zero]
    nlinarith [mul_le_mul hr2 hr2 hr0 (show (0:Int) ≤ 255 by norm_num),
               mul_le_mul hg2 hg2 hg0 (show (0:Int) ≤ 255 by norm_num),
               mul_le_mul hb2 hb2 hb0 (show (0:Int) ≤ 255 by norm_num)]
  obtain ⟨inv1, inv2, inv3⟩ := quantLoop_inv r g b (min 256 cap) 0 2147483647 (-1)
  have hrange : List.range (min 256 cap) = List.range' 0 (min 256 cap) :=
    List.range_eq_range' (min 256 cap)
  have hmin0 : 0 < min 256 cap := by omega
  rcases inv3 with ⟨he1, _⟩ | ⟨j, _, hj2, hj3, hj4, _, hj6⟩
  · exfalso
    have := inv2 0 (le_refl 0) (by omega)
    rw [he1] at this
    omega
  · have hq : quantize cap r g b = (j : Int) := by
      rw [quantize, hrange, hj3]
    have htn : (quantize cap r g b).toNat = j := by rw [hq]; exact Int.toNat_ofNat j
    refine ⟨hlen, ?_, ?_, ?_, ?_, ?_⟩
    · rw [hres, hq]; exact Int.ofNat_nonneg j
    · rw [hres, hq]
      have hj2a : j < min 256 cap := by omega
      exact_mod_cast hj2a
    · rw [hres, hq]
      have hj256 : j < 256 := by omega
      exact_mod_cast hj256
    · intro k hk
      rw [hres, htn, ← hj4]
      exact inv2 k (Nat.zero_le k) (by omega)
    · intro k hk hke
      rw [hres, hq]
      by_contra hcon
      have hkj : k < j := by
        by_contra hle
        exact hcon (by exact_mod_cast Nat.le_of_not_lt hle)
      have := hj6 k (Nat.zero_le k) hkj
      rw [hres, htn] at hke
      omega

/-- Witness for C4: switching dynamic allocation off-then-on on a supporting
terminal with 256 slots resets the caches, and the next two distinct RGB
colors get slots 16 and 17. -/
theorem set_change_colors_reset_witness :
    set_change_colors true ⟨default_colors, [], 16, 1, false⟩ true
      = (true, ⟨default_colors, [], 16, 1, true⟩) ∧
    (get_color true 256 ⟨default_colors, [], 16, 1, true⟩ (Color.rgb 1 2 3)).1 = 16 ∧
    (get_color true 256
        (get_color true 256 ⟨default_colors, [], 16, 1, true⟩ (Color.rgb 1 2 3)).2
        (Color.rgb 4 5 6)).1 = 17 := by
  have h := set_change_colors_reset_spec true ⟨default_colors, [], 16, 1, false⟩ true
    256 1 2 3 4 5 6
  exact ⟨h.1 rfl (by decide), h.2.2 (by decide) (by decide)⟩

/-- Witness for C3: quantizing pure black on a fresh palette with
`COLORS = 17` and no dynamic allocation satisfies all the bounds. -/
theorem get_color_quantize_minimal_witness :
    (alookup (⟨default_colors, [], 16, 1, false⟩ : Palette).colors (Color.rgb 0 0 0) = none
      ∧ ¬ (((⟨default_colors, [], 16, 1, false⟩ : Palette).change_colors = true)
            ∧ (false = true) ∧ 17 > 16)
      ∧ 1 ≤ 17 ∧ 0 < 256 ∧ 0 < 256 ∧ 0 < 256) ∧
    (builtin_colors.length = 256 ∧
     0 ≤ (get_color false 17 ⟨default_colors, [], 16, 1, false⟩ (Color.rgb 0 0 0)).1 ∧
     (get_color false 17 ⟨default_colors, [], 16, 1, false⟩ (Color.rgb 0 0 0)).1
        < (min 256 17 : Nat) ∧
     (get_color false 17 ⟨default_colors, [], 16, 1, false⟩ (Color.rgb 0 0 0)).1 < 256 ∧
     (∀ j : Nat, j < min 256 17 →
       distAt 0 0 0 (get_color false 17 ⟨default_colors, [], 16, 1, false⟩
           (Color.rgb 0 0 0)).1.toNat
         ≤ distAt 0 0 0 j) ∧
     (∀ j : Nat, j < min 256 17 →
       distAt 0 0 0 j = distAt 0 0 0 (get_color false 17 ⟨default_colors, [], 16, 1, false⟩
           (Color.rgb 0 0 0)).1.toNat →
       (get_color false 17 ⟨default_colors, [], 16, 1, false⟩ (Color.rgb 0 0 0)).1
         ≤ (j : Int))) := by
  refine ⟨⟨by decide, by decide, by decide, by decide, by decide, by decide⟩, ?_⟩
  exact get_color_quantize_minimal false 17 0 0 0 ⟨default_colors, [], 16, 1, false⟩
    (by decide) (by decide) (by decide) (by decide) (by decide) (by decide)

/-! ## Window::draw_line (claim C5)

Embeds `NCursesUI::Window::draw_line`.  A `DisplayAtom`'s content is its
glyph sequence; a glyph carries its display-column width, as computed by
the external `codepoint_width` (which assigns `'\n'` width 1).  Face
switching (`set_face`) does not change which glyphs are emitted, so the
embedding returns the emitted glyph sequence. -/

/-- One glyph of a run: codepoint and display-column width. -/
structure Glyph where
  code : Nat
  width : Nat
deriving DecidableEq, Repr

/-- `column_length()`: total display columns of a run. -/
def columnLength (s : List Glyph) : Nat := (s.map Glyph.width).sum

/-- Modelled from the spec: `String::substr(0_col, n)` clips a run to at
most `n` display columns at a glyph boundary ("measured in display
columns, not raw units, so multi-column glyphs are never split"). -/
def takeColumns : Int → List Glyph → List Glyph
  | _, [] => []
  | budget, g :: gs =>
    if (g.width : Int) ≤ budget then g :: takeColumns (budget - g.width) gs else []

/-- `NCursesUI::Window::draw_line`: for each non-empty run, if its last
character is `'\n'` and `column_length() - 1` is strictly below the
remaining budget `max_column - col_index`, emit the run without the
terminator followed by one blank (`waddch(win, ' ')`), leaving `col_index`
unchanged; otherwise clip to the remaining columns, emit, and advance
`col_index` by the emitted width. -/
def draw_line (atoms : List (List Glyph)) (col_index max_column : Int) : List Glyph :=
  match atoms with
  | [] => []
  | content :: rest =>
    if content.isEmpty then draw_line rest col_index max_column
    else
      let remaining := max_column - col_index
      if content.getLast?.map Glyph.code = some 10
          ∧ (columnLength content : Int) - 1 < remaining then
        (content.dropLast ++ [⟨32, 1⟩]) ++ draw_line rest col_index max_column
      else
        let clipped := takeColumns remaining content
        clipped ++ draw_line rest (col_index + (columnLength clipped : Int)) max_column

lemma columnLength_append (xs ys : List Glyph) :
    columnLength (xs ++ ys) = columnLength xs + columnLength ys := by
  simp [columnLength]

lemma takeColumns_le : ∀ (s : List Glyph) (budget : Int), 0 ≤ budget →
    (columnLength (takeColumns budget s) : Int) ≤ budget := by
  intro s
  induction s with
  | nil => intro budget h; simpa [takeColumns, columnLength] using h
  | cons g gs ih =>
    intro budget h
    by_cases hg : (g.width : Int) ≤ budget
    · have hrec := ih (budget - g.width) (by omega)
      simp only [takeColumns, hg, if_true]
      have : columnLength (g :: takeColumns (budget - g.width) gs)
          = g.width + columnLength (takeColumns (budget - g.width) gs) := by
        simp [columnLength]
      rw [this]
      push_cast
      omega
    · simp only [takeColumns, hg, if_false]
      simpa [columnLength] using h

/-- C5 counterexample: a line whose *first* run ends in a fitting line
terminator followed by a second run emits 4 display columns against a
budget of 2: the terminator branch does not advance `col_index`, so the
claim "`draw_line` emits at most `max_column - col_index` columns in
total across all runs for every styled line" is false as stated. -/
theorem draw_line_budget_counterexample :
    ¬ ((columnLength (draw_line [[⟨97, 1⟩, ⟨10, 1⟩], [⟨98, 1⟩, ⟨98, 1⟩]] 0 2) : Int)
        ≤ 2 - 0) := by decide

/-- C5 (amended): provided only the final run may end in a line
terminator (and `'\n'` glyphs have width 1, as `codepoint_width` gives),
`draw_line` emits at most `max_column - col_index` columns in total; and
any single run ending in a terminator that fits strictly within the
budget is emitted as its text without the terminator followed by exactly
one blank cell — never the terminator glyph. -/
theorem draw_line_budget_amended (atoms : List (List Glyph)) (col_index max_column : Int)
    (hcol : col_index ≤ max_column)
    (h10 : ∀ a ∈ atoms, ∀ g ∈ a, g.code = 10 → g.width = 1)
    (hlast : ∀ a ∈ atoms.dropLast, ¬ (a.getLast?.map Glyph.code = some 10)) :
    (columnLength (draw_line atoms col_index max_column) : Int)
        ≤ max_column - col_index ∧
    (∀ (content : List Glyph) (ci mc : Int), content ≠ [] →
      content.getLast? = some ⟨10, 1⟩ →
      (columnLength content : Int) - 1 < mc - ci →
      draw_line [content] ci mc = content.dropLast ++ [⟨32, 1⟩]) := by
  constructor
  · induction atoms generalizing col_index with
    | nil =>
      simp only [draw_line, columnLength, List.map_nil, List.sum_nil, Nat.cast_zero]
      omega
    | cons a rest ih =>
      have h10rest : ∀ x ∈ rest, ∀ g ∈ x, g.code = 10 → g.width = 1 :=
        fun x hx => h10 x (List.mem_cons_of_mem a hx)
      have hlastrest : ∀ x ∈ rest.dropLast, ¬ (x.getLast?.map Glyph.code = some 10) := by
        intro x hx
        apply hlast
        cases rest with
        | nil => simp at hx
        | cons b bs =>
          rw [List.dropLast_cons₂]
          exact List.mem_cons_of_mem a hx
      by_cases hemp : a.isEmpty
      · simp only [draw_line, hemp, if_true]
        exact ih col_index hcol h10rest hlastrest
      · by_cases hterm : a.getLast?.map Glyph.code = some 10
            ∧ (columnLength a : Int) - 1 < max_column - col_index
        · have hrest : rest = [] := by
            cases rest with
            | nil => rfl
            | cons b bs =>
              exfalso
              refine hlast a ?_ hterm.1
              rw [List.dropLast_cons₂]
              exact List.mem_cons_self a _
          subst hrest
          obtain ⟨gl, hgl, hcode⟩ := Option.map_eq_some'.mp hterm.1
          have hsplit : a.dropLast ++ [gl] = a := List.dropLast_append_getLast? gl hgl
          have hmem : gl ∈ a := by
            rw [← hsplit]; exact List.mem_append_right _ (List.mem_singleton_self gl)
          have hw : gl.width = 1 := h10 a (List.mem_cons_self a _) gl hmem hcode
          have hlen : columnLength a = columnLength a.dropLast + 1 := by
            conv_lhs => rw [← hsplit]
            rw [columnLength_append]
            simp [columnLength, hw]
          have hunf : draw_line [a] col_index max_column
              = a.dropLast ++ [⟨32, 1⟩] := by
            simp only [draw_line]
            rw [if_neg hemp, if_pos hterm]
            simp [draw_line]
          rw [hunf, columnLength_append]
          have hfit := hterm.2
          rw [hlen] at hfit
          have hone : columnLength [(⟨32, 1⟩ : Glyph)] = 1 := by simp [columnLength]
          rw [hone]
          push_cast at *
          omega
        · have hrem : (0 : Int) ≤ max_column - col_index := by omega
          have hclip := takeColumns_le a (max_column - col_index) hrem
          have hrec := ih (col_index +
              (columnLength (takeColumns (max_column - col_index) a) : Int))
            (by omega) h10rest hlastrest
          have hunf : draw_line (a :: rest) col_index max_column
              = takeColumns (max_column - col_index) a
                ++ draw_line rest (col_index +
                    (columnLength (takeColumns (max_column - col_index) a) : Int))
                  max_column := by
            simp only [draw_line]
            rw [if_neg hemp, if_neg hterm]
          rw [hunf, columnLength_append]
          push_cast at *
          omega
  · intro content ci mc hne hl hfit
    have hmap : content.getLast?.map Glyph.code = some 10 := by rw [hl]; rfl
    have hempf : ¬ (content.isEmpty = true) := by
      cases content with
      | nil => exact absurd rfl hne
      | cons x xs => simp
    simp only [draw_line, hempf, if_false, Bool.false_eq_true]
    rw [if_pos ⟨hmap, hfit⟩]
    simp [draw_line]

/-- Witness for the amended C5 at a concrete line: `"h\n"` with budget 5
emits `"h "` (2 columns ≤ 5), the blank replacing the terminator. -/
theorem draw_line_budget_amended_witness :
    ((0 : Int) ≤ 5 ∧
     (∀ a ∈ [[⟨104, 1⟩, ⟨10, 1⟩]], ∀ g ∈ a, Glyph.code g = 10 → Glyph.width g = 1) ∧
     (∀ a ∈ ([[⟨104, 1⟩, ⟨10, 1⟩]] : List (List Glyph)).dropLast,
        ¬ (a.getLast?.map Glyph.code = some 10))) ∧
    (columnLength (draw_line [[⟨104, 1⟩, ⟨10, 1⟩]] 0 5) : Int) ≤ 5 - 0 ∧
    draw_line [[⟨104, 1⟩, ⟨10, 1⟩]] 0 5 = [⟨104, 1⟩, ⟨32, 1⟩] := by
  have h := draw_line_budget_amended [[⟨104, 1⟩, ⟨10, 1⟩]] 0 5
    (by norm_num) (by decide) (by decide)
  refine ⟨⟨by norm_num, by decide, by decide⟩, h.1, ?_⟩
  have h2 := h.2 [⟨104, 1⟩, ⟨10, 1⟩] 0 5 (by decide) (by decide) (by decide)
  simpa using h2

/-! ## Input decoder (claims C1, C2, C6)

Embeds `NCursesUI::get_next_key` in builtin-key-parser mode (keypad
translation off, so `wgetch` yields raw bytes; the `KEY_MOUSE` branch,
which requires the ncurses `getmouse` query, cannot arise from the raw
byte stream).  The `sighup`/pending-resize preamble of `get_next_key`
reads process-wide signal state and is outside the byte-stream model;
decoding is modelled from the first read unit onward.  A read unit is an
`Int` (`ERR = -1` when no input is pending); input is a finite list of
pending units. -/

/-- Key modifier bit-set (`Key::Modifiers`). -/
structure Mods where
  shift : Bool := false
  alt : Bool := false
  control : Bool := false
  mousePressLeft : Bool := false
  mousePressRight : Bool := false
  mouseReleaseLeft : Bool := false
  mouseReleaseRight : Bool := false
  mousePos : Bool := false
  scroll : Bool := false
deriving DecidableEq, Repr

/-- Key payloads: the named special keys, a plain codepoint, a mouse
coordinate (`encode_coord` packs a `DisplayCoord` into the key), or a
scroll amount. -/
inductive KeyVal where
  | up | down | right | left | home | endKey
  | insert | del | pageUp | pageDown
  | tab | escape | ret | backspace
  | focusIn | focusOut
  | namedPlaceholder
  | resizeEvent
  | f (n : Nat)
  | char (cp : Nat)
  | coord (line column : Int)
  | scrollAmount (amount : Int)
deriving DecidableEq, Repr

/-- A decoded key event. -/
structure Key where
  mods : Mods
  val : KeyVal
deriving DecidableEq, Repr

/-- `shift(key)` / `alt(key)` from `keys.hh`: add one modifier. -/
def shift (k : Key) : Key := { k with mods := { k.mods with shift := true } }

def alt (k : Key) : Key := { k with mods := { k.mods with alt := true } }

/-- Decoder state read or written while decoding: `m_mouse_state` (2-bit
buttons-down tracking), `m_wheel_scroll_amount`, `content_line_offset()`
and `m_shift_function_key`. -/
structure UIState where
  mouseState : Nat
  wheelScrollAmount : Int
  contentLineOffset : Int
  shiftFunctionKey : Int
deriving DecidableEq, Repr

/-- The state after construction with default options. -/
def initState : UIState := ⟨0, 3, 0, 12⟩

/-- One non-blocking `wgetch`: the next raw unit, or `ERR = -1`. -/
def getch : List Int → Int × List Int
  | [] => (-1, [])
  | c :: rest => (c, rest)

/-- `parse_mask`: `mask = max(0, mask - 1)` (`Nat` subtraction is exactly
that on the non-negative CSI parameter), then bit 0 = shift, bit 1 = alt,
bit 2 = control. -/
def parse_mask (m : Nat) : Mods :=
  let mask := m - 1
  { shift := mask &&& 1 != 0, alt := mask &&& 2 != 0, control := mask &&& 4 != 0 }

/-- `mouse_button`: on press, report a press unless that button is already
recorded down (then a plain position), and record it; on release, report
the release and clear the record.  `x - (x &&& mask)` is
`m_mouse_state & ~mask` for the single-bit `mask`. -/
def mouse_button (st : UIState) (mod : Mods) (coord : KeyVal) (left release : Bool) :
    Key × UIState :=
  let mask : Nat := if left then 0x1 else 0x2
  if release then
    (⟨if left then { mod with mouseReleaseLeft := true }
      else { mod with mouseReleaseRight := true }, coord⟩,
     { st with mouseState := st.mouseState - (st.mouseState &&& mask) })
  else
    (⟨if st.mouseState &&& mask != 0 then { mod with mousePos := true }
      else if left then { mod with mousePressLeft := true }
      else { mod with mousePressRight := true }, coord⟩,
     { st with mouseState := st.mouseState ||| mask })

/-- The `direction` table: final bytes `A`..`F`. -/
def direction : List KeyVal := [.up, .down, .right, .left, .home, .endKey]

/-- The `special` table: first parameters 2..24 before final byte `~`
(`Key::NamedKey{}` placeholder entries included). -/
def special : List KeyVal :=
  [.insert, .del, .namedPlaceholder, .pageUp, .pageDown, .home, .endKey,
   .namedPlaceholder, .namedPlaceholder, .f 1, .f 2, .f 3, .f 4,
   .namedPlaceholder, .f 5, .f 6, .f 7, .f 8, .f 9, .f 10,
   .namedPlaceholder, .f 11, .f 12]

/-- `int params[16] = {};` -/
def zeros16 : List Nat := List.replicate 16 0

/-- The CSI parameter loop
`for (int count = 0; count < 16 and c >= 0x30 && c <= 0x3f; c = get_char())`:
a digit accumulates into `params[count]` (the source's guard
`'0' <= 'c'` is the literal `0x30 <= 0x63`), `;` moves to the next
parameter, any other filler in `0x30..0x3f` aborts (`none`).  On exit the
pair carries the final params and the first unit outside the range. -/
def csiLoop (count : Nat) (params : List Nat) :
    List Int → Option (List Nat × Int) × List Int
  | [] => (some (params, -1), [])
  | c :: rest =>
    if count < 16 ∧ 0x30 ≤ c ∧ c ≤ 0x3f then
      if (0x30 : Int) ≤ 0x63 ∧ c ≤ 0x39 then
        csiLoop count (params.set count (params.getD count 0 * 10 + (c - 0x30).toNat)) rest
      else if c = 0x3b then csiLoop (count + 1) params rest
      else (none, rest)
    else (some (params, c), rest)

/-- The code of `parse_csi` after the parameter loop: final-byte
dispatch on the loop's result.  `A`..`F` directional keys, `~` special
keys, `Z` shift-tab, `I`/`O` focus, SGR mouse (`M`/`m` with `<` prefix;
its switch falls through to the legacy branch on an unmatched button
code), legacy X10 mouse (`M`, three more units biased by 32, with the
2-bit button-down state disambiguating release code 3), else no event.
A `none` loop result (malformed filler) yields no event. -/
def csiDispatch (st : UIState) (private_mode : Int) :
    Option (List Nat × Int) × List Int → Option Key × UIState × List Int
  | (none, rest) => (none, st, rest)
  | (some (params, c), rest) =>
    if c < 0x40 ∨ c > 0x7e then (none, st, rest)
    else
      let p0 := params.getD 0 0
      let p1 := params.getD 1 0
      let p2 := params.getD 2 0
      if 0x41 ≤ c ∧ c ≤ 0x46 then
        (some ⟨parse_mask p1, direction.getD (c - 0x41).toNat KeyVal.up⟩, st, rest)
      else if c = 0x7e ∧ 2 ≤ p0 ∧ p0 ≤ 24 then
        (some ⟨parse_mask p1, special.getD (p0 - 2) KeyVal.namedPlaceholder⟩, st, rest)
      else if c = 0x5a then (some (shift ⟨{}, .tab⟩), st, rest)
      else if c = 0x49 then (some ⟨{}, .focusIn⟩, st, rest)
      else if c = 0x4f then (some ⟨{}, .focusOut⟩, st, rest)
      else if (c = 0x4d ∨ c = 0x6d) ∧ private_mode = 0x3c
          ∧ (p0 &&& 0x43 = 0 ∨ p0 &&& 0x43 = 2 ∨ p0 &&& 0x43 = 64 ∨ p0 &&& 0x43 = 65) then
        let coord := KeyVal.coord ((p2 : Int) - st.contentLineOffset - 1) ((p1 : Int) - 1)
        let mod := parse_mask (1 + ((p0 >>> 2) &&& 0x7))
        if p0 &&& 0x43 = 0 then
          let r := mouse_button st mod coord true (c = 0x6d)
          (some r.1, r.2, rest)
        else if p0 &&& 0x43 = 2 then
          let r := mouse_button st mod coord false (c = 0x6d)
          (some r.1, r.2, rest)
        else if p0 &&& 0x43 = 64 then
          (some ⟨{ mod with scroll := true }, .scrollAmount (-st.wheelScrollAmount)⟩, st, rest)
        else
          (some ⟨{ mod with scroll := true }, .scrollAmount st.wheelScrollAmount⟩, st, rest)
      else if c = 0x4d then
        let g1 := getch rest
        let g2 := getch g1.2
        let g3 := getch g2.2
        let b : Nat := ((g1.1 - 32) % 4294967296).toNat
        let x : Int := g2.1 - 32 - 1
        let y : Int := g3.1 - 32 - 1
        let coord := KeyVal.coord (y - st.contentLineOffset) x
        let mod := parse_mask (1 + ((b >>> 2) &&& 0x7))
        if b &&& 0x43 = 0 then
          let r := mouse_button st mod coord true false
          (some r.1, r.2, g3.2)
        else if b &&& 0x43 = 2 then
          let r := mouse_button st mod coord false false
          (some r.1, r.2, g3.2)
        else if b &&& 0x43 = 3 then
          if st.mouseState &&& 0x1 != 0 then
            let r := mouse_button st mod coord true true
            (some r.1, r.2, g3.2)
          else if st.mouseState &&& 0x2 != 0 then
            let r := mouse_button st mod coord false true
            (some r.1, r.2, g3.2)
          else (some ⟨{ mousePos := true }, coord⟩, st, g3.2)
        else if b &&& 0x43 = 64 then
          (some ⟨{ mod with scroll := true }, .scrollAmount (-st.wheelScrollAmount)⟩, st, g3.2)
        else if b &&& 0x43 = 65 then
          (some ⟨{ mod with scroll := true }, .scrollAmount st.wheelScrollAmount⟩, st, g3.2)
        else (some ⟨{ mousePos := true }, coord⟩, st, g3.2)
      else (none, st, rest)

/-- `parse_csi`: an optional private-mode prefix (`?`, `<`, `=`, `>`),
then the parameter loop, then the final-byte dispatch. -/
def parse_csi (st : UIState) (stream : List Int) : Option Key × UIState × List Int :=
  let c0 := (getch stream).1
  let isPrivate := c0 = 0x3f ∨ c0 = 0x3c ∨ c0 = 0x3d ∨ c0 = 0x3e
  let private_mode : Int := if isPrivate then c0 else 0
  let s := if isPrivate then (getch stream).2 else stream
  csiDispatch st private_mode (csiLoop 0 zeros16 s)

/-- ncurses key constants (external `ncurses.h`; all are ≥ 256 and so
distinct from every raw byte the builtin parser reads). -/
def KEY_DOWN : Int := 258
def KEY_UP : Int := 259
def KEY_LEFT : Int := 260
def KEY_RIGHT : Int := 261
def KEY_HOME : Int := 262
def KEY_BACKSPACE : Int := 263
def KEY_DC : Int := 330
def KEY_IC : Int := 331
def KEY_SF : Int := 336
def KEY_SR : Int := 337
def KEY_NPAGE : Int := 338
def KEY_PPAGE : Int := 339
def KEY_BTAB : Int := 353
def KEY_END : Int := 360
def KEY_SDC : Int := 378
def KEY_SEND : Int := 381
def KEY_SHOME : Int := 386
def KEY_SIC : Int := 387
def KEY_SLEFT : Int := 393
def KEY_SNEXT : Int := 395
def KEY_SPREVIOUS : Int := 399
def KEY_SRIGHT : Int := 402
def KEY_RESIZE : Int := 410

/-- The `for (int i = 0; i < 12; ++i)` function-key scan:
`KEY_F(n) = KEY_F0 + n = 264 + n`, plain then shifted (with the
configurable `m_shift_function_key` offset). -/
def fkeys (sfk c : Int) : Option Key :=
  (List.range 12).findSome? fun (i : Nat) =>
    if c = 264 + ((i : Int) + 1) then some ⟨{}, .f (i + 1)⟩
    else if c = 264 + (sfk + (i : Int) + 1) then some (shift ⟨{}, .f (i + 1)⟩)
    else none

/-- Modelled from the spec: UTF-8 recombination (`utf8::codepoint` over a
`getch_iterator`): a unit that is the first byte of a multi-byte UTF-8
sequence is combined with the following continuation units into one
codepoint. -/
def utf8Decode (c : Int) (stream : List Int) : Nat × List Int :=
  let b := c.toNat
  if b < 0x80 then (b, stream)
  else if b < 0xe0 then
    let g1 := getch stream
    (((b &&& 0x1f) <<< 6) ||| (g1.1.toNat &&& 0x3f), g1.2)
  else if b < 0xf0 then
    let g1 := getch stream
    let g2 := getch g1.2
    (((b &&& 0x0f) <<< 12) ||| ((g1.1.toNat &&& 0x3f) <<< 6) ||| (g2.1.toNat &&& 0x3f),
     g2.2)
  else
    let g1 := getch stream
    let g2 := getch g1.2
    let g3 := getch g2.2
    (((b &&& 0x07) <<< 18) ||| ((g1.1.toNat &&& 0x3f) <<< 12) |||
       ((g2.1.toNat &&& 0x3f) <<< 6) ||| (g3.1.toNat &&& 0x3f), g3.2)

/-- The `parse_key` lambda of `get_next_key`: the fixed table of ncurses
named keys, C0 control codes (`C-z` requests a suspend and yields no
event), function keys, and the byte-range fallback that pushes the unit
back (`ungetch`) and reassembles a UTF-8 codepoint. -/
def parse_key (st : UIState) (c : Int) (stream : List Int) : Option Key × List Int :=
  if c = KEY_BACKSPACE ∨ c = 127 then (some ⟨{}, .backspace⟩, stream)
  else if c = KEY_DC then (some ⟨{}, .del⟩, stream)
  else if c = KEY_SDC then (some (shift ⟨{}, .del⟩), stream)
  else if c = KEY_UP then (some ⟨{}, .up⟩, stream)
  else if c = KEY_SR then (some (shift ⟨{}, .up⟩), stream)
  else if c = KEY_DOWN then (some ⟨{}, .down⟩, stream)
  else if c = KEY_SF then (some (shift ⟨{}, .down⟩), stream)
  else if c = KEY_LEFT then (some ⟨{}, .left⟩, stream)
  else if c = KEY_SLEFT then (some (shift ⟨{}, .left⟩), stream)
  else if c = KEY_RIGHT then (some ⟨{}, .right⟩, stream)
  else if c = KEY_SRIGHT then (some (shift ⟨{}, .right⟩), stream)
  else if c = KEY_PPAGE then (some ⟨{}, .pageUp⟩, stream)
  else if c = KEY_SPREVIOUS then (some (shift ⟨{}, .pageUp⟩), stream)
  else if c = KEY_NPAGE then (some ⟨{}, .pageDown⟩, stream)
  else if c = KEY_SNEXT then (some (shift ⟨{}, .pageDown⟩), stream)
  else if c = KEY_HOME then (some ⟨{}, .home⟩, stream)
  else if c = KEY_SHOME then (some (shift ⟨{}, .home⟩), stream)
  else if c = KEY_END then (some ⟨{}, .endKey⟩, stream)
  else if c = KEY_SEND then (some (shift ⟨{}, .endKey⟩), stream)
  else if c = KEY_IC then (some ⟨{}, .insert⟩, stream)
  else if c = KEY_SIC then (some (shift ⟨{}, .insert⟩), stream)
  else if c = KEY_BTAB then (some (shift ⟨{}, .tab⟩), stream)
  else if c = KEY_RESIZE then (some ⟨{}, .resizeEvent⟩, stream)
  else if 0 < c ∧ c < 27 then
    if c = 13 ∨ c = 10 then (some ⟨{}, .ret⟩, stream)
    else if c = 9 then (some ⟨{}, .tab⟩, stream)
    else if c = 8 then (some ⟨{}, .backspace⟩, stream)
    else if c = 26 then (none, stream)
    else (some ⟨{ control := true }, .char ((c - 1).toNat + 97)⟩, stream)
  else
    match fkeys st.shiftFunctionKey c with
    | some k => (some k, stream)
    | none =>
      if 0 ≤ c ∧ c < 256 then
        let d := utf8Decode c stream
        (some ⟨{}, .char d.1⟩, d.2)
      else (none, stream)

/-- `NCursesUI::get_next_key` from the first read unit onward: no unit
pending yields nothing; `ESC` starts the two-branch lookahead (`[` tries
`parse_csi`, and on its failure — or for any other follow-up — the
follow-up unit is decoded as a plain key and wrapped as alt, a missing
follow-up giving a bare Escape); anything else is decoded as a plain
key. -/
def get_next_key (st : UIState) (stream : List Int) : Option Key × UIState × List Int :=
  match stream with
  | [] => (none, st, [])
  | c :: s1 =>
    if c = 27 then
      let g := getch s1
      if g.1 = 0x5b then
        let r := parse_csi st g.2
        match r.1 with
        | some k => (some k, r.2.1, r.2.2)
        | none =>
          let pk := parse_key r.2.1 g.1 r.2.2
          match pk.1 with
          | some k => (some (alt k), r.2.1, pk.2)
          | none => (some ⟨{}, .escape⟩, r.2.1, pk.2)
      else
        let pk := parse_key st g.1 g.2
        match pk.1 with
        | some k => (some (alt k), st, pk.2)
        | none => (some ⟨{}, .escape⟩, st, pk.2)
    else
      let pk := parse_key st c s1
      (pk.1, st, pk.2)

/-! ## Input decoder theorems (claims C1, C2, C6) -/

/-- The decimal value accumulated by the parameter loop over a digit
sequence, starting from `a`. -/
def foldDigits (a : Nat) (ds : List Int) : Nat :=
  ds.foldl (fun x d => x * 10 + (d - 0x30).toNat) a

lemma csiLoop_digits0 (ds : List Int) (hds : ∀ d ∈ ds, (0x30 : Int) ≤ d ∧ d ≤ 0x39) :
    ∀ (a : Nat) (t : List Nat) (rest : List Int),
      csiLoop 0 (a :: t) (ds ++ rest) = csiLoop 0 (foldDigits a ds :: t) rest := by
  induction ds with
  | nil => intro a t rest; simp [foldDigits]
  | cons d ds ih =>
    intro a t rest
    have hd := hds d (List.mem_cons_self _ _)
    have hds2 : ∀ x ∈ ds, (0x30 : Int) ≤ x ∧ x ≤ 0x39 :=
      fun x hx => hds x (List.mem_cons_of_mem d hx)
    rw [List.cons_append]
    simp only [csiLoop]
    rw [if_pos ⟨by norm_num, hd.1, by omega⟩, if_pos ⟨by norm_num, hd.2⟩]
    simp only [List.set_cons_zero, List.getD_cons_zero]
    rw [ih hds2]
    simp [foldDigits]

lemma csiLoop_digits1 (ds : List Int) (hds : ∀ d ∈ ds, (0x30 : Int) ≤ d ∧ d ≤ 0x39) :
    ∀ (p0 a : Nat) (t : List Nat) (rest : List Int),
      csiLoop 1 (p0 :: a :: t) (ds ++ rest) = csiLoop 1 (p0 :: foldDigits a ds :: t) rest := by
  induction ds with
  | nil => intro p0 a t rest; simp [foldDigits]
  | cons d ds ih =>
    intro p0 a t rest
    have hd := hds d (List.mem_cons_self _ _)
    have hds2 : ∀ x ∈ ds, (0x30 : Int) ≤ x ∧ x ≤ 0x39 :=
      fun x hx => hds x (List.mem_cons_of_mem d hx)
    rw [List.cons_append]
    simp only [csiLoop]
    rw [if_pos ⟨by norm_num, hd.1, by omega⟩, if_pos ⟨by norm_num, hd.2⟩]
    simp only [List.set_cons_succ, List.set_cons_zero, List.getD_cons_succ,
      List.getD_cons_zero]
    rw [ih hds2]
    simp [foldDigits]

lemma csiLoop_semi (count : Nat) (hc : count < 16) (params : List Nat) (rest : List Int) :
    csiLoop count params (0x3b :: rest) = csiLoop (count + 1) params rest := by
  simp only [csiLoop]
  rw [if_pos ⟨hc, by norm_num, by norm_num⟩]
  norm_num

lemma csiLoop_exit (count : Nat) (params : List Nat) (c : Int) (rest : List Int)
    (h : ¬ (count < 16 ∧ (0x30 : Int) ≤ c ∧ c ≤ 0x3f)) :
    csiLoop count params (c :: rest) = (some (params, c), rest) := by
  simp only [csiLoop]
  rw [if_neg h]

lemma parse_csi_nonprivate (st : UIState) (c0 : Int) (s1 : List Int)
    (h : ¬ (c0 = 0x3f ∨ c0 = 0x3c ∨ c0 = 0x3d ∨ c0 = 0x3e)) :
    parse_csi st (c0 :: s1) = csiDispatch st 0 (csiLoop 0 zeros16 (c0 :: s1)) := by
  show csiDispatch st
      (if c0 = 0x3f ∨ c0 = 0x3c ∨ c0 = 0x3d ∨ c0 = 0x3e then c0 else 0)
      (csiLoop 0 zeros16
        (if c0 = 0x3f ∨ c0 = 0x3c ∨ c0 = 0x3d ∨ c0 = 0x3e then s1 else c0 :: s1))
    = csiDispatch st 0 (csiLoop 0 zeros16 (c0 :: s1))
  rw [if_neg h, if_neg h]

lemma parse_csi_direction (st : UIState) (d1 : Int) (ds1 ds2 : List Int) (c : Int)
    (rest : List Int)
    (h1 : ∀ d ∈ d1 :: ds1, (0x30 : Int) ≤ d ∧ d ≤ 0x39)
    (h2 : ∀ d ∈ ds2, (0x30 : Int) ≤ d ∧ d ≤ 0x39)
    (hc1 : 0x41 ≤ c) (hc2 : c ≤ 0x46) :
    parse_csi st (d1 :: ds1 ++ 0x3b :: ds2 ++ c :: rest)
      = (some ⟨parse_mask (foldDigits 0 ds2),
               direction.getD (c - 0x41).toNat KeyVal.up⟩, st, rest) := by
  have hd1 := h1 d1 (List.mem_cons_self _ _)
  have hshape : d1 :: ds1 ++ 0x3b :: ds2 ++ c :: rest
      = (d1 :: ds1) ++ (0x3b :: (ds2 ++ (c :: rest))) := by simp
  have hloop : csiLoop 0 zeros16 (d1 :: ds1 ++ 0x3b :: ds2 ++ c :: rest)
      = (some (foldDigits 0 (d1 :: ds1) :: foldDigits 0 ds2 :: List.replicate 14 0, c),
         rest) := by
    rw [hshape]
    rw [show zeros16 = 0 :: List.replicate 15 0 from rfl]
    rw [csiLoop_digits0 (d1 :: ds1) h1 0 (List.replicate 15 0) _]
    rw [csiLoop_semi 0 (by norm_num) _ _]
    rw [show List.replicate 15 (0 : Nat) = 0 :: List.replicate 14 0 from rfl]
    rw [csiLoop_digits1 ds2 h2 _ 0 (List.replicate 14 0) (c :: rest)]
    exact csiLoop_exit 1 _ c rest (by omega)
  have hprivate : ¬ (d1 = 0x3f ∨ d1 = 0x3c ∨ d1 = 0x3d ∨ d1 = 0x3e) := by omega
  have hA : ¬ (c < 0x40 ∨ c > 0x7e) := by omega
  rw [show d1 :: ds1 ++ 0x3b :: ds2 ++ c :: rest
        = d1 :: (ds1 ++ 0x3b :: ds2 ++ c :: rest) from rfl,
     parse_csi_nonprivate st d1 _ hprivate]
  rw [show d1 :: (ds1 ++ 0x3b :: ds2 ++ c :: rest)
        = d1 :: ds1 ++ 0x3b :: ds2 ++ c :: rest from rfl, hloop]
  simp only [csiDispatch]
  rw [if_neg hA, if_pos (show (0x41 : Int) ≤ c ∧ c ≤ 0x46 from ⟨hc1, hc2⟩)]
  simp [List.getD_cons_succ, List.getD_cons_zero]

/-- The `ESC [` entry into `get_next_key`: after reading `ESC` and the
`[` follow-up, the result is `parse_csi`'s key on success, and otherwise
the `[` decoded as a plain key wrapped with alt (a key always results,
since `parse_key` on a byte yields one). -/
lemma get_next_key_csi (st : UIState) (S : List Int) :
    get_next_key st (27 :: 0x5b :: S)
      = match (parse_csi st S).1 with
        | some k => (some k, (parse_csi st S).2.1, (parse_csi st S).2.2)
        | none =>
          match (parse_key (parse_csi st S).2.1 0x5b (parse_csi st S).2.2).1 with
          | some k => (some (alt k), (parse_csi st S).2.1,
                       (parse_key (parse_csi st S).2.1 0x5b (parse_csi st S).2.2).2)
          | none => (some ⟨{}, .escape⟩, (parse_csi st S).2.1,
                     (parse_key (parse_csi st S).2.1 0x5b (parse_csi st S).2.2).2) := by
  rfl

/-- C1: an `ESC [` sequence with a first numeric parameter, a second
numeric parameter (its decimal digits `ds2`, value `foldDigits 0 ds2`),
and a final byte in `A`..`F` decodes to the directional key
`direction[c - 'A']` (Up, Down, Right, Left, Home, End) with the modifier
set `parse_mask` of the second parameter — bits 0, 1, 2 of
`max(0, m - 1)` giving shift, alt, control.  The decoder state is
unchanged and exactly the sequence's bytes are consumed. -/
theorem csi_directional_keys (st : UIState) (d1 : Int) (ds1 ds2 : List Int) (c : Int)
    (rest : List Int)
    (h1 : ∀ d ∈ d1 :: ds1, (0x30 : Int) ≤ d ∧ d ≤ 0x39)
    (h2 : ∀ d ∈ ds2, (0x30 : Int) ≤ d ∧ d ≤ 0x39)
    (hc1 : 0x41 ≤ c) (hc2 : c ≤ 0x46) :
    get_next_key st (27 :: 0x5b :: (d1 :: ds1 ++ 0x3b :: ds2 ++ c :: rest))
      = (some ⟨parse_mask (foldDigits 0 ds2),
               direction.getD (c - 0x41).toNat KeyVal.up⟩, st, rest) := by
  have hp := parse_csi_direction st d1 ds1 ds2 c rest h1 h2 hc1 hc2
  rw [get_next_key_csi st _, hp]

/-- Witness for C1 on the claim's own example: the raw bytes
`ESC [ 1 ; 5 A` decode to the Up key with exactly the Control modifier
(mask `5 - 1 = 4`, bit 2). -/
theorem csi_directional_keys_witness :
    ((∀ d ∈ [(0x31 : Int)], (0x30 : Int) ≤ d ∧ d ≤ 0x39) ∧
     (∀ d ∈ [(0x35 : Int)], (0x30 : Int) ≤ d ∧ d ≤ 0x39) ∧
     (0x41 : Int) ≤ 0x41 ∧ (0x41 : Int) ≤ 0x46) ∧
    get_next_key initState [27, 0x5b, 0x31, 0x3b, 0x35, 0x41]
      = (some ⟨{ control := true }, KeyVal.up⟩, initState, []) := by
  refine ⟨⟨by decide, by decide, by norm_num, by norm_num⟩, ?_⟩
  have h := csi_directional_keys initState 0x31 [] [0x35] 0x41 []
    (by decide) (by decide) (by norm_num) (by norm_num)
  rw [show (27 : Int) :: 0x5b :: ((0x31 : Int) :: [] ++ 0x3b :: [0x35] ++ 0x41 :: [])
        = [27, 0x5b, 0x31, 0x3b, 0x35, 0x41] from rfl] at h
  rw [h]
  decide

lemma fkeys_none_of_lt (sfk c : Int) (hs : 0 ≤ sfk) (hc : c < 265) :
    fkeys sfk c = none := by
  rw [fkeys, List.findSome?_eq_none_iff]
  intro i hi
  rw [if_neg (by omega), if_neg (by omega)]

/-- `parse_key` on the byte `'['` (91): no named key or function key
matches (for a non-negative shifted-function-key offset), so the byte is
pushed back and re-read as the single-byte UTF-8 codepoint 91. -/
lemma parse_key_91 (st : UIState) (s : List Int) (h : 0 ≤ st.shiftFunctionKey) :
    parse_key st 91 s = (some ⟨{}, .char 91⟩, s) := by
  have hfk := fkeys_none_of_lt st.shiftFunctionKey 91 h (by norm_num)
  simp [parse_key, hfk, utf8Decode, KEY_BACKSPACE, KEY_DC, KEY_SDC, KEY_UP, KEY_SR,
    KEY_DOWN, KEY_SF, KEY_LEFT, KEY_SLEFT, KEY_RIGHT, KEY_SRIGHT, KEY_PPAGE,
    KEY_SPREVIOUS, KEY_NPAGE, KEY_SNEXT, KEY_HOME, KEY_SHOME, KEY_END, KEY_SEND,
    KEY_IC, KEY_SIC, KEY_BTAB, KEY_RESIZE]

lemma mouse_button_sfk (st : UIState) (mod : Mods) (coord : KeyVal) (l r : Bool) :
    (mouse_button st mod coord l r).2.shiftFunctionKey = st.shiftFunctionKey := by
  cases r <;> rfl

lemma csiDispatch_sfk (st : UIState) (pm : Int) (r : Option (List Nat × Int) × List Int) :
    (csiDispatch st pm r).2.1.shiftFunctionKey = st.shiftFunctionKey := by
  rcases r with ⟨o, rest⟩
  cases o with
  | none => rfl
  | some pc =>
    rcases pc with ⟨params, c⟩
    simp only [csiDispatch]
    by_cases h1 : c < 0x40 ∨ c > 0x7e
    · rw [if_pos h1]
    rw [if_neg h1]
    by_cases h2 : (0x41 : Int) ≤ c ∧ c ≤ 0x46
    · rw [if_pos h2]
    rw [if_neg h2]
    by_cases h3 : c = 0x7e ∧ 2 ≤ params.getD 0 0 ∧ params.getD 0 0 ≤ 24
    · rw [if_pos h3]
    rw [if_neg h3]
    by_cases h4 : c = 0x5a
    · rw [if_pos h4]
    rw [if_neg h4]
    by_cases h5 : c = 0x49
    · rw [if_pos h5]
    rw [if_neg h5]
    by_cases h6 : c = 0x4f
    · rw [if_pos h6]
    rw [if_neg h6]
    by_cases h7 : (c = 0x4d ∨ c = 0x6d) ∧ pm = 0x3c
        ∧ (params.getD 0 0 &&& 0x43 = 0 ∨ params.getD 0 0 &&& 0x43 = 2
           ∨ params.getD 0 0 &&& 0x43 = 64 ∨ params.getD 0 0 &&& 0x43 = 65)
    · rw [if_pos h7]
      by_cases h8 : params.getD 0 0 &&& 0x43 = 0
      · rw [if_pos h8]; exact mouse_button_sfk ..
      rw [if_neg h8]
      by_cases h9 : params.getD 0 0 &&& 0x43 = 2
      · rw [if_pos h9]; exact mouse_button_sfk ..
      rw [if_neg h9]
      by_cases h10 : params.getD 0 0 &&& 0x43 = 64
      · rw [if_pos h10]
      rw [if_neg h10]
    rw [if_neg h7]
    by_cases h11 : c = 0x4d
    · rw [if_pos h11]
      by_cases h12 : ((((getch rest).1 - 32) % 4294967296).toNat) &&& 0x43 = 0
      · rw [if_pos h12]; exact mouse_button_sfk ..
      rw [if_neg h12]
      by_cases h13 : ((((getch rest).1 - 32) % 4294967296).toNat) &&& 0x43 = 2
      · rw [if_pos h13]; exact mouse_button_sfk ..
      rw [if_neg h13]
      by_cases h14 : ((((getch rest).1 - 32) % 4294967296).toNat) &&& 0x43 = 3
      · rw [if_pos h14]
        by_cases h15 : (st.mouseState &&& 0x1 != 0) = true
        · rw [if_pos h15]; exact mouse_button_sfk ..
        rw [if_neg h15]
        by_cases h16 : (st.mouseState &&& 0x2 != 0) = true
        · rw [if_pos h16]; exact mouse_button_sfk ..
        rw [if_neg h16]
      rw [if_neg h14]
      by_cases h17 : ((((getch rest).1 - 32) % 4294967296).toNat) &&& 0x43 = 64
      · rw [if_pos h17]
      rw [if_neg h17]
      by_cases h18 : ((((getch rest).1 - 32) % 4294967296).toNat) &&& 0x43 = 65
      · rw [if_pos h18]
      rw [if_neg h18]
    rw [if_neg h11]

lemma parse_csi_sfk (st : UIState) (s : List Int) :
    (parse_csi st s).2.1.shiftFunctionKey = st.shiftFunctionKey := by
  unfold parse_csi
  exact csiDispatch_sfk st _ _

/-- C2 counterexample: the malformed CSI sequence `ESC [ 1 : A` (a
non-digit filler `:` where a digit was expected) does NOT yield "no
event": the poll yields the key alt+`[`, because `get_next_key` falls
back to decoding the already-read `[` as a plain key.  So the claim "the
poll yields no event and the sequence never surfaces as any key" is
false as stated. -/
theorem csi_malformed_counterexample :
    (get_next_key initState [27, 0x5b, 0x31, 0x3a, 0x41]).1
        = some ⟨{ alt := true }, .char 91⟩ ∧
    ¬ ((get_next_key initState [27, 0x5b, 0x31, 0x3a, 0x41]).1 = none) := by decide

/-- C2 (amended): whenever `parse_csi` fails — too many parameters, a
non-digit filler, an unrecognized final byte, all return `none` — the
CSI parser itself yields no key event and the partial parameters are
discarded, but the surrounding poll does not stay silent: it decodes the
already-consumed `[` as a plain key and yields alt+`[` (given the
non-negative shifted-function-key offset the configuration provides). -/
theorem csi_malformed_amended (st : UIState) (s : List Int)
    (hsfk : 0 ≤ st.shiftFunctionKey)
    (hfail : (parse_csi st s).1 = none) :
    (get_next_key st (27 :: 0x5b :: s)).1 = some (alt ⟨{}, .char 91⟩) := by
  rw [get_next_key_csi st s]
  have hsfk2 : 0 ≤ (parse_csi st s).2.1.shiftFunctionKey := by
    rw [parse_csi_sfk]; exact hsfk
  rw [hfail]
  simp only []
  rw [parse_key_91 _ _ hsfk2]

/-- Witness for the amended C2: `ESC [ 1 q` (unrecognized final byte `q`)
yields alt+`[`. -/
theorem csi_malformed_amended_witness :
    ((0 : Int) ≤ initState.shiftFunctionKey ∧
     (parse_csi initState [0x31, 0x71]).1 = none) ∧
    (get_next_key initState [27, 0x5b, 0x31, 0x71]).1 = some (alt ⟨{}, .char 91⟩) := by
  exact ⟨⟨by decide, by decide⟩,
    csi_malformed_amended initState [0x31, 0x71] (by decide) (by decide)⟩

lemma lor_one_and_one (x : Nat) : (x ||| 1) &&& 1 = 1 := by
  have h := Nat.and_two_pow (x ||| 1) 0
  simp only [pow_zero, mul_one] at h
  rw [h, Nat.testBit_lor, show Nat.testBit 1 0 = true from rfl, Bool.or_true]
  rfl

lemma lor_two_and_one (x : Nat) : (x ||| 2) &&& 1 = x &&& 1 := by
  have h1 := Nat.and_two_pow (x ||| 2) 0
  have h2 := Nat.and_two_pow x 0
  simp only [pow_zero, mul_one] at h1 h2
  rw [h1, h2, Nat.testBit_lor, show Nat.testBit 2 0 = false from rfl, Bool.or_false]

lemma lor_two_and_two (x : Nat) : (x ||| 2) &&& 2 = 2 := by
  have h := Nat.and_two_pow (x ||| 2) 1
  simp only [pow_one] at h
  rw [h, Nat.testBit_lor, show Nat.testBit 2 1 = true from rfl, Bool.or_true]
  rfl

/-- Decoding a legacy left-press report (code byte 32): a press unless
the left button is already recorded down (then a plain position), and
bit 0 of `m_mouse_state` is set. -/
lemma parse_csi_legacy_press_left (st : UIState) (cx cy : Int) (rest : List Int) :
    parse_csi st (0x4d :: 32 :: cx :: cy :: rest)
      = (some ⟨(if st.mouseState &&& 0x1 != 0 then { mousePos := true }
                else { mousePressLeft := true } : Mods),
               .coord (cy - 32 - 1 - st.contentLineOffset) (cx - 32 - 1)⟩,
         { st with mouseState := st.mouseState ||| 0x1 }, rest) := by
  with_unfolding_all rfl

/-- Decoding a legacy right-press report (code byte 34). -/
lemma parse_csi_legacy_press_right (st : UIState) (cx cy : Int) (rest : List Int) :
    parse_csi st (0x4d :: 34 :: cx :: cy :: rest)
      = (some ⟨(if st.mouseState &&& 0x2 != 0 then { mousePos := true }
                else { mousePressRight := true } : Mods),
               .coord (cy - 32 - 1 - st.contentLineOffset) (cx - 32 - 1)⟩,
         { st with mouseState := st.mouseState ||| 0x2 }, rest) := by
  with_unfolding_all rfl

/-- Decoding the ambiguous legacy release report (code byte 35, button
bits 3): attributed to the left button if recorded down, else to the
right button if recorded down, else a plain mouse-position event. -/
lemma parse_csi_legacy_release (st : UIState) (cx cy : Int) (rest : List Int) :
    parse_csi st (0x4d :: 35 :: cx :: cy :: rest)
      = (if st.mouseState &&& 0x1 != 0 then
           (some ⟨{ mouseReleaseLeft := true },
                  .coord (cy - 32 - 1 - st.contentLineOffset) (cx - 32 - 1)⟩,
            { st with mouseState := st.mouseState - (st.mouseState &&& 0x1) }, rest)
         else if st.mouseState &&& 0x2 != 0 then
           (some ⟨{ mouseReleaseRight := true },
                  .coord (cy - 32 - 1 - st.contentLineOffset) (cx - 32 - 1)⟩,
            { st with mouseState := st.mouseState - (st.mouseState &&& 0x2) }, rest)
         else (some ⟨{ mousePos := true },
                     .coord (cy - 32 - 1 - st.contentLineOffset) (cx - 32 - 1)⟩,
               st, rest)) := by
  with_unfolding_all rfl

lemma get_next_key_csi_some (st st2 : UIState) (S rest2 : List Int) (k : Key)
    (h : parse_csi st S = (some k, st2, rest2)) :
    get_next_key st (27 :: 0x5b :: S) = (some k, st2, rest2) := by
  rw [get_next_key_csi st S, h]

/-- C6: legacy X10 mouse protocol state tracking.  From any decoder
state, a left press (code byte 32) followed by the ambiguous release
byte 35 (button bits 3) yields a release attributed to the left button;
a right press (byte 34) with the left button not recorded down, followed
by the ambiguous release, yields a release attributed to the right
button; and with neither button recorded down the ambiguous release
yields a plain mouse-position event instead of a release. -/
theorem legacy_mouse_release_attribution (st : UIState) (cx cy cx2 cy2 : Int)
    (rest rest2 : List Int) :
    ((get_next_key ((get_next_key st
          (27 :: 0x5b :: 0x4d :: 32 :: cx :: cy :: rest)).2.1)
        (27 :: 0x5b :: 0x4d :: 35 :: cx2 :: cy2 :: rest2)).1
      = some ⟨{ mouseReleaseLeft := true },
              .coord (cy2 - 32 - 1 - st.contentLineOffset) (cx2 - 32 - 1)⟩) ∧
    (st.mouseState &&& 1 = 0 →
      (get_next_key ((get_next_key st
            (27 :: 0x5b :: 0x4d :: 34 :: cx :: cy :: rest)).2.1)
          (27 :: 0x5b :: 0x4d :: 35 :: cx2 :: cy2 :: rest2)).1
        = some ⟨{ mouseReleaseRight := true },
                .coord (cy2 - 32 - 1 - st.contentLineOffset) (cx2 - 32 - 1)⟩) ∧
    (st.mouseState = 0 →
      (get_next_key st (27 :: 0x5b :: 0x4d :: 35 :: cx2 :: cy2 :: rest2)).1
        = some ⟨{ mousePos := true },
                .coord (cy2 - 32 - 1 - st.contentLineOffset) (cx2 - 32 - 1)⟩) := by
  refine ⟨?_, fun h2 => ?_, fun h3 => ?_⟩
  · have hA := get_next_key_csi_some st _ _ _ _ (parse_csi_legacy_press_left st cx cy rest)
    have hst1 : (get_next_key st (27 :: 0x5b :: 0x4d :: 32 :: cx :: cy :: rest)).2.1
        = { st with mouseState := st.mouseState ||| 0x1 } := by rw [hA]
    rw [hst1]
    have h35 := parse_csi_legacy_release
      { st with mouseState := st.mouseState ||| 0x1 } cx2 cy2 rest2
    rw [if_pos (show (({ st with mouseState := st.mouseState ||| 0x1 }
          : UIState).mouseState &&& 0x1 != 0) = true by
        simp [lor_one_and_one])] at h35
    rw [get_next_key_csi_some _ _ _ _ _ h35]
  · have hA := get_next_key_csi_some st _ _ _ _ (parse_csi_legacy_press_right st cx cy rest)
    have hst1 : (get_next_key st (27 :: 0x5b :: 0x4d :: 34 :: cx :: cy :: rest)).2.1
        = { st with mouseState := st.mouseState ||| 0x2 } := by rw [hA]
    rw [hst1]
    have h35 := parse_csi_legacy_release
      { st with mouseState := st.mouseState ||| 0x2 } cx2 cy2 rest2
    have hb1 : ({ st with mouseState := st.mouseState ||| 0x2 }
          : UIState).mouseState &&& 0x1 = 0 := by
      show (st.mouseState ||| 2) &&& 1 = 0
      rw [lor_two_and_one]; exact h2
    rw [if_neg (show ¬ ((({ st with mouseState := st.mouseState ||| 0x2 }
          : UIState).mouseState &&& 0x1 != 0) = true) by simp [hb1])] at h35
    rw [if_pos (show (({ st with mouseState := st.mouseState ||| 0x2 }
          : UIState).mouseState &&& 0x2 != 0) = true by
        simp [lor_two_and_two])] at h35
    rw [get_next_key_csi_some _ _ _ _ _ h35]
  · have h35 := parse_csi_legacy_release st cx2 cy2 rest2
    rw [if_neg (show ¬ ((st.mouseState &&& 0x1 != 0) = true) by simp [h3]),
        if_neg (show ¬ ((st.mouseState &&& 0x2 != 0) = true) by simp [h3])] at h35
    rw [get_next_key_csi_some _ _ _ _ _ h35]

/-- Witness for C6 from the fresh decoder state: press left at column 9,
row 17, then the ambiguous release is attributed to the left button; the
same for the right button; and the ambiguous release alone is a plain
move. -/
theorem legacy_mouse_release_attribution_witness :
    (initState.mouseState &&& 1 = 0 ∧ initState.mouseState = 0) ∧
    (get_next_key ((get_next_key initState
          (27 :: 0x5b :: 0x4d :: 32 :: 41 :: 50 :: [])).2.1)
        (27 :: 0x5b :: 0x4d :: 35 :: 42 :: 50 :: [])).1
      = some ⟨{ mouseReleaseLeft := true },
              .coord (50 - 32 - 1 - initState.contentLineOffset) (42 - 32 - 1)⟩ ∧
    (get_next_key ((get_next_key initState
          (27 :: 0x5b :: 0x4d :: 34 :: 41 :: 50 :: [])).2.1)
        (27 :: 0x5b :: 0x4d :: 35 :: 42 :: 50 :: [])).1
      = some ⟨{ mouseReleaseRight := true },
              .coord (50 - 32 - 1 - initState.contentLineOffset) (42 - 32 - 1)⟩ ∧
    (get_next_key initState (27 :: 0x5b :: 0x4d :: 35 :: 42 :: 50 :: [])).1
      = some ⟨{ mousePos := true },
              .coord (50 - 32 - 1 - initState.contentLineOffset) (42 - 32 - 1)⟩ := by
  have h := legacy_mouse_release_attribution initState 41 50 42 50 [] []
  exact ⟨⟨by decide, by decide⟩, h.1, h.2.1 (by decide), h.2.2 (by decide)⟩

/-! ## Info box placement (claim C7)

Embeds the free function `compute_pos`.  `DisplayCoord` is a pair of
`int`-valued line/column counts. -/

/-- `Kakoune::DisplayCoord`. -/
structure Coord where
  line : Int
  column : Int
deriving DecidableEq, Repr

/-- `NCursesUI::Rect`: position and size. -/
structure Rect where
  pos : Coord
  size : Coord
deriving DecidableEq, Repr

/-- The obstacle-avoidance step at the end of `compute_pos`: if the
obstacle is non-empty and the code's intersection test fires, re-anchor
above the obstacle (`min(to_avoid.pos.line, anchor.line) - size.line`),
or below (`max(to_avoid_end.line, anchor.line)`) if above would go
negative. -/
def avoidObstacle (anchor size : Coord) (to_avoid : Rect) (pos : Coord) : Coord :=
  if to_avoid.size ≠ (⟨0, 0⟩ : Coord) then
    if ¬ (pos.line + size.line < to_avoid.pos.line ∨
          pos.column + size.column < to_avoid.pos.column ∨
          pos.line > to_avoid.pos.line + to_avoid.size.line ∨
          pos.column > to_avoid.pos.column + to_avoid.size.column) then
      if min to_avoid.pos.line anchor.line - size.line < 0 then
        ⟨max (to_avoid.pos.line + to_avoid.size.line) anchor.line, pos.column⟩
      else ⟨min to_avoid.pos.line anchor.line - size.line, pos.column⟩
    else pos
  else pos

/-- `compute_pos(anchor, size, rect, to_avoid, prefer_above)`: place below
or above the anchor, clamp into `rect`, then apply the obstacle-avoidance
step. -/
def compute_pos (anchor size : Coord) (rect to_avoid : Rect)
    (prefer_above0 : Bool) : Coord :=
  let prefer_above := prefer_above0 ∧ anchor.line - size.line ≥ 0
  let rect_end : Coord :=
    ⟨rect.pos.line + rect.size.line, rect.pos.column + rect.size.column⟩
  let pos1 : Coord :=
    if prefer_above then ⟨anchor.line - size.line, anchor.column⟩
    else
      if anchor.line + 1 + size.line > rect_end.line then
        ⟨max rect.pos.line (anchor.line - size.line), anchor.column⟩
      else ⟨anchor.line + 1, anchor.column⟩
  let pos2 : Coord :=
    if pos1.column + size.column > rect_end.column then
      ⟨pos1.line, max rect.pos.column (rect_end.column - size.column)⟩
    else pos1
  avoidObstacle anchor size to_avoid pos2

/-- A cell covered by a box of the given position and size (a box of
`size.line` lines starting at `pos.line`, and likewise for columns). -/
def inBox (p pos size : Coord) : Prop :=
  pos.line ≤ p.line ∧ p.line < pos.line + size.line ∧
  pos.column ≤ p.column ∧ p.column < pos.column + size.column

/-- Two boxes overlap when some cell lies in both. -/
def boxesOverlap (pos1 size1 pos2 size2 : Coord) : Prop :=
  ∃ p : Coord, inBox p pos1 size1 ∧ inBox p pos2 size2

lemma avoidObstacle_no_overlap (anchor size : Coord) (to_avoid : Rect) (pos : Coord)
    (hne : to_avoid.size ≠ (⟨0, 0⟩ : Coord)) :
    ¬ boxesOverlap (avoidObstacle anchor size to_avoid pos) size
        to_avoid.pos to_avoid.size := by
  rintro ⟨p, hp1, hp2⟩
  rw [avoidObstacle, if_pos hne] at hp1
  by_cases hint : ¬ (pos.line + size.line < to_avoid.pos.line ∨
      pos.column + size.column < to_avoid.pos.column ∨
      pos.line > to_avoid.pos.line + to_avoid.size.line ∨
      pos.column > to_avoid.pos.column + to_avoid.size.column)
  · rw [if_pos hint] at hp1
    by_cases hl : min to_avoid.pos.line anchor.line - size.line < 0
    · rw [if_pos hl] at hp1
      obtain ⟨a1, a2, a3, a4⟩ := hp1
      obtain ⟨b1, b2, b3, b4⟩ := hp2
      simp only at a1 a2 a3 a4
      omega
    · rw [if_neg hl] at hp1
      obtain ⟨a1, a2, a3, a4⟩ := hp1
      obtain ⟨b1, b2, b3, b4⟩ := hp2
      simp only at a1 a2 a3 a4
      omega
  · rw [if_neg hint] at hp1
    rw [not_not] at hint
    obtain ⟨a1, a2, a3, a4⟩ := hp1
    obtain ⟨b1, b2, b3, b4⟩ := hp2
    rcases hint with h | h | h | h <;> omega

/-- C7: for every anchor, box size, available rectangle and non-empty
obstacle, the position `compute_pos` returns never overlaps the
obstacle.  (So a fortiori the claim's disjunction holds: either the
placement avoids the obstacle, or the box fails `info_show`'s final
fits-within-`rect` check `anchor < rect.pos ∨ anchor + size > rect.pos +
rect.size` and is suppressed; the first disjunct in fact always holds.) -/
theorem compute_pos_avoids_obstacle (anchor size : Coord) (rect to_avoid : Rect)
    (prefer_above : Bool) (hne : to_avoid.size ≠ (⟨0, 0⟩ : Coord)) :
    ¬ boxesOverlap (compute_pos anchor size rect to_avoid prefer_above) size
        to_avoid.pos to_avoid.size := by
  rw [compute_pos]
  exact avoidObstacle_no_overlap anchor size to_avoid _ hne

/-- Witness for C7: a concrete anchor, size, rectangle and obstacle. -/
theorem compute_pos_avoids_obstacle_witness :
    ((⟨⟨2, 3⟩, ⟨4, 10⟩⟩ : Rect).size ≠ (⟨0, 0⟩ : Coord)) ∧
    ¬ boxesOverlap
        (compute_pos ⟨3, 5⟩ ⟨2, 6⟩ ⟨⟨0, 0⟩, ⟨24, 80⟩⟩ ⟨⟨2, 3⟩, ⟨4, 10⟩⟩ false) ⟨2, 6⟩
        (⟨2, 3⟩ : Coord) (⟨4, 10⟩ : Coord) := by
  refine ⟨by decide, ?_⟩
  exact compute_pos_avoids_obstacle ⟨3, 5⟩ ⟨2, 6⟩ ⟨⟨0, 0⟩, ⟨24, 80⟩⟩ ⟨⟨2, 3⟩, ⟨4, 10⟩⟩
    false (by decide)

/-! ## Menu layout (claims C8, C10)

Embeds `NCursesUI::menu_show`, `NCursesUI::menu_select` and the
single-row rendering loop of `NCursesUI::draw_menu`.  A candidate
`DisplayLine` is represented by its display column length
(`DisplayLine::length()`), the only datum the layout code reads.
`DisplayLine::trim(0, maxlen)` (external `display_buffer.cc`) truncates
to at most `maxlen` columns, modelled as `min`; the `kak_assert` after
the trim states exactly this bound. -/

inductive MenuStyle where
  | inlineStyle | promptStyle | searchStyle
deriving DecidableEq, Repr

/-- The menu state fields the layout code uses: candidate lengths,
`m_menu.selected_item`, `m_menu.first_item`, `m_menu.columns`, window
position and size. -/
structure Menu where
  items : List Nat
  selected_item : Int
  first_item : Int
  columns : Int
  posLine : Int
  posColumn : Int
  sizeLine : Int
  sizeColumn : Int
deriving DecidableEq, Repr

/-- `div_round_up`: `(a - T(1)) / b + T(1)` with C integer division. -/
def div_round_up (a b : Int) : Int := Int.tdiv (a - 1) b + 1

/-- `height_limit(style)`: 10 rows for inline/prompt, 3 for search. -/
def height_limit : MenuStyle → Int
  | .inlineStyle => 10
  | .promptStyle => 10
  | .searchStyle => 3

/-- `NCursesUI::menu_show` (geometry and state; drawing aside): `none`
models the early return when fewer than 3 columns are available (the
stale old state is untouched, no window is created — an unsuccessful
show).  `dim` is `m_dimensions`, `statusOnTop` selects the content line
offset. -/
def menu_show (dim : Coord) (statusOnTop : Bool) (itemLens : List Nat)
    (anchor : Coord) (style : MenuStyle) : Option Menu :=
  if dim.column ≤ 2 then none
  else
    let item_count : Int := itemLens.length
    let longest : Nat := itemLens.foldl (fun a l => max a l) 1
    let max_width : Int := dim.column - 1
    let is_inline := style = MenuStyle.inlineStyle
    let is_search := style = MenuStyle.searchStyle
    let columns : Int :=
      if is_search then 0
      else if is_inline then 1
      else max (Int.tdiv max_width ((longest : Int) + 1)) 1
    let max_height : Int :=
      min (height_limit style) (max anchor.line (dim.line - anchor.line - 1))
    let height : Int :=
      if is_search then 1 else min max_height (div_round_up item_count columns)
    let maxlen : Int :=
      if columns > 1 ∧ item_count > 1 then Int.tdiv max_width columns - 1
      else max_width
    let items2 : List Nat := itemLens.map (fun l => min l maxlen.toNat)
    let aline : Int := if is_inline then anchor.line + (if statusOnTop then 1 else 0)
                       else anchor.line
    let line0 : Int := aline + 1
    let column0 : Int := max 0 (min anchor.column (dim.column - (longest : Int) - 1))
    let line : Int :=
      if is_search then (if statusOnTop then 0 else dim.line)
      else if ¬ is_inline then (if statusOnTop then 1 else dim.line - height)
      else if line0 + height > dim.line then aline - height
      else line0
    let column : Int := if is_search then Int.tdiv dim.column 2 else column0
    let width : Int :=
      if is_search then dim.column - Int.tdiv dim.column 2
      else if is_inline then min ((longest : Int) + 1) dim.column
      else dim.column
    some ⟨items2, item_count, 0, columns, line, column, height, width⟩

/-- The single-row page scan of `menu_select`
(`for (int i = 0; i <= selected; ++i)`), over the items up to the
selected one, carrying the page start `first` and the running width
`item_col`: an item that would overflow the width starts a new page at
its own index. -/
def selLoopAux (width : Int) : List Nat → Nat → Nat → Int → Nat × Int
  | [], _, first, item_col => (first, item_col)
  | w :: ws, i, first, item_col =>
    let item_width : Int := (w : Int) + 1
    if item_col + item_width > width then selLoopAux width ws (i + 1) i item_width
    else selLoopAux width ws (i + 1) first (item_col + item_width)

/-- `NCursesUI::menu_select`: out-of-range clears the selection and
resets to the first page; single-row mode walks pages with the width
budget `size.column - 3`; grid mode slides the first visible column. -/
def menu_select (m : Menu) (selected : Int) : Menu :=
  let item_count : Int := m.items.length
  if selected < 0 ∨ selected ≥ item_count then
    { m with selected_item := -1, first_item := 0 }
  else if m.columns = 0 then
    let width : Int := m.sizeColumn - 3
    let first := (selLoopAux width (m.items.take (selected.toNat + 1)) 0 0 0).1
    { m with selected_item := selected, first_item := (first : Int) }
  else
    let menu_cols := div_round_up item_count m.sizeLine
    let first_col := Int.tdiv m.first_item m.sizeLine
    let selected_col := Int.tdiv selected m.sizeLine
    let m1 := { m with selected_item := selected }
    let m2 := if selected_col < first_col
              then { m1 with first_item := selected_col * m.sizeLine } else m1
    if selected_col ≥ first_col + m.columns
    then { m2 with first_item := min selected_col (menu_cols - m.columns) * m.sizeLine }
    else m2

/-- The single-row drawing loop of `draw_menu`
(`for (; i < item_count and pos < win_width; ++i)`), as its trace: the
drawn item indices, each marked with whether it was truncated with an
ellipsis (`item_width > win_width - pos`). -/
def drawRowAux (winWidth : Int) : List Nat → Nat → Int → List (Nat × Bool)
  | [], _, _ => []
  | w :: ws, i, pos =>
    if pos < winWidth then
      (i, decide ((w : Int) > winWidth - pos)) :: drawRowAux winWidth ws (i + 1) (pos + w + 1)
    else []

/-- The single-row drawing trace from `first_item` with the budget
`win_width = size.column - 4`. -/
def drawRow (items : List Nat) (winWidth : Int) (first : Nat) : List (Nat × Bool) :=
  drawRowAux winWidth (items.drop first) first 0

/-- Total row width of a run of items, one separator column each
(`item_width = item.length() + 1` accumulated). -/
def rowWidth (l : List Nat) : Int := (l.map (fun w => (w : Int) + 1)).sum

lemma rowWidth_cons (w : Nat) (l : List Nat) :
    rowWidth (w :: l) = ((w : Int) + 1) + rowWidth l := by
  simp [rowWidth]

lemma rowWidth_append (a b : List Nat) :
    rowWidth (a ++ b) = rowWidth a + rowWidth b := by
  simp [rowWidth]

lemma rowWidth_nonneg (l : List Nat) : 0 ≤ rowWidth l := by
  induction l with
  | nil => simp [rowWidth]
  | cons w ws ih =>
    rw [rowWidth_cons]
    have : (0 : Int) ≤ (w : Int) := Int.ofNat_nonneg w
    omega

lemma take_init_append_last (L : List Nat) (h : L ≠ []) :
    L.take (L.length - 1) ++ [L.getD (L.length - 1) 0] = L := by
  have hlen : 0 < L.length := List.length_pos.mpr h
  have h1 : L.getLast? = some (L.getD (L.length - 1) 0) := by
    rw [List.getLast?_eq_getElem?, List.getD_eq_getElem?_getD,
        List.getElem?_eq_getElem (by omega)]
    rfl
  have h2 := List.dropLast_append_getLast? _ h1
  rwa [List.dropLast_eq_take] at h2

/-- If the drawing loop's running position stays below the budget up to
item `p` (of the remaining run `ws`, absolute index `i + p`) and the
item fits in what is left, the trace contains that item untruncated. -/
lemma drawRowAux_mem (winWidth : Int) :
    ∀ (p : Nat) (ws : List Nat) (i : Nat) (pos : Int),
      p < ws.length →
      pos + rowWidth (ws.take p) < winWidth →
      ¬ ((ws.getD p 0 : Int) > winWidth - (pos + rowWidth (ws.take p))) →
      (i + p, false) ∈ drawRowAux winWidth ws i pos := by
  intro p
  induction p with
  | zero =>
    intro ws i pos hp hreach hfit
    obtain ⟨w, ws', rfl⟩ : ∃ w ws', ws = w :: ws' := by
      cases ws with
      | nil => simp at hp
      | cons a b => exact ⟨a, b, rfl⟩
    have h0 : rowWidth ((w :: ws').take 0) = 0 := by simp [rowWidth]
    rw [h0] at hreach hfit
    simp only [drawRowAux]
    rw [if_pos (by omega)]
    have hdec : decide ((w : Int) > winWidth - pos) = false := by
      rw [decide_eq_false_iff_not]
      intro hgt
      exact hfit (by simpa using (by omega : (w : Int) > winWidth - (pos + 0)))
    rw [hdec]
    simp
  | succ p IH =>
    intro ws i pos hp hreach hfit
    obtain ⟨w, ws', rfl⟩ : ∃ w ws', ws = w :: ws' := by
      cases ws with
      | nil => simp at hp
      | cons a b => exact ⟨a, b, rfl⟩
    have htake : rowWidth ((w :: ws').take (p + 1))
        = ((w : Int) + 1) + rowWidth (ws'.take p) := by
      rw [List.take_succ_cons, rowWidth_cons]
    have hguard : pos < winWidth := by
      have hnn := rowWidth_nonneg ((w :: ws').take (p + 1))
      omega
    simp only [drawRowAux]
    rw [if_pos hguard]
    have hmem := IH ws' (i + 1) (pos + w + 1) (by simpa using hp)
      (by rw [htake] at hreach; omega)
      (by
        rw [htake] at hfit
        intro hgt
        refine hfit ?_
        have : ((w :: ws').getD (p + 1) 0 : Int) = (ws'.getD p 0 : Int) := by
          simp [List.getD_cons_succ]
        rw [this]
        omega)
    have heq : i + (p + 1) = (i + 1) + p := by omega
    rw [heq]
    exact List.mem_cons_of_mem _ hmem

/-- Invariant of the single-row page scan: starting from index `i` with
page start `first` and running width `col` equal to the width of the run
`[first, i)`, the final accumulator is the width of the run from the
final page start to the end, which either fits in the budget or is the
singleton page of the last item; and the final page start is an index of
the list (or 0). -/
lemma selLoopAux_spec (width : Int) (items : List Nat) :
    ∀ (k i first : Nat) (col : Int),
      i + k = items.length → first ≤ i →
      col = rowWidth ((items.drop first).take (i - first)) →
      (col ≤ width ∨ i = first + 1) →
      (first = 0 ∨ first < items.length) →
      ((selLoopAux width (items.drop i) i first col).2
          = rowWidth (items.drop (selLoopAux width (items.drop i) i first col).1)) ∧
      ((selLoopAux width (items.drop i) i first col).2 ≤ width ∨
        (selLoopAux width (items.drop i) i first col).1 + 1 = items.length) ∧
      ((selLoopAux width (items.drop i) i first col).1 = 0 ∨
        (selLoopAux width (items.drop i) i first col).1 < items.length) ∧
      first ≤ (selLoopAux width (items.drop i) i first col).1 := by
  intro k
  induction k with
  | zero =>
    intro i first col hik hfi hcol hC hE
    have hi : i = items.length := by omega
    have hdrop : items.drop i = [] := by
      subst hi; exact List.drop_length items
    rw [hdrop]
    simp only [selLoopAux]
    have hall : (items.drop first).take (i - first) = items.drop first := by
      apply List.take_of_length_le
      rw [List.length_drop]
      omega
    rw [hall] at hcol
    exact ⟨hcol, by omega, hE, le_refl first⟩
  | succ k IH =>
    intro i first col hik hfi hcol hC hE
    have hlt : i < items.length := by omega
    have hcons : items.drop i = items[i] :: items.drop (i + 1) :=
      List.drop_eq_getElem_cons hlt
    rw [hcons]
    simp only [selLoopAux]
    by_cases hov : col + ((items[i] : Int) + 1) > width
    · rw [if_pos hov]
      have hcol2 : ((items[i] : Int) + 1) = rowWidth ((items.drop i).take (i + 1 - i)) := by
        have h1 : i + 1 - i = 1 := by omega
        rw [h1, hcons, List.take_succ_cons, List.take_zero, rowWidth_cons]
        simp [rowWidth]
      have h := IH (i + 1) i _ (by omega) (by omega) hcol2 (Or.inr rfl) (Or.inr hlt)
      exact ⟨h.1, h.2.1, h.2.2.1, le_trans hfi h.2.2.2⟩
    · rw [if_neg hov]
      have hcol2 : col + ((items[i] : Int) + 1)
          = rowWidth ((items.drop first).take (i + 1 - first)) := by
        have h1 : i + 1 - first = (i - first) + 1 := by omega
        rw [h1, List.take_succ]
        have hg : (items.drop first)[i - first]? = some items[i] := by
          rw [List.getElem?_drop]
          have h2 : first + (i - first) = i := by omega
          rw [h2, List.getElem?_eq_getElem hlt]
        rw [hg, rowWidth_append, ← hcol]
        simp [rowWidth]
      exact IH (i + 1) first _ (by omega) (by omega) hcol2 (Or.inl (by omega)) hE

/-- C8 counterexample: a shown single-row (search style) menu on a
9-column terminal holding one 6-column candidate; selecting the last
(only) item leaves it truncated with an ellipsis, because the item alone
is wider than the 1-column row budget.  So "selecting the last item
always results in the selected item being drawn in full" is false as
stated. -/
theorem menu_select_last_fit_counterexample :
    menu_show ⟨5, 9⟩ false [6] ⟨0, 0⟩ MenuStyle.searchStyle
      = some ⟨[6], 1, 0, 0, 5, 4, 1, 5⟩ ∧
    ¬ ((0, false) ∈ drawRow (menu_select ⟨[6], 1, 0, 0, 5, 4, 1, 5⟩ 0).items
        ((menu_select ⟨[6], 1, 0, 0, 5, 4, 1, 5⟩ 0).sizeColumn - 4)
        (menu_select ⟨[6], 1, 0, 0, 5, 4, 1, 5⟩ 0).first_item.toNat) := by decide

/-- C8 (amended): in single-row mode, for a non-empty candidate list
whose last item is non-empty and fits the row budget by itself (its
width plus one separator at most `size.column - 3`), selecting the last
item yields a first-visible index from which the drawing loop reaches
the last item and draws it in full, not truncated with an ellipsis. -/
theorem menu_select_last_fits (m : Menu)
    (hcols : m.columns = 0) (hne : m.items ≠ [])
    (hpos : 1 ≤ m.items.getD (m.items.length - 1) 0)
    (hfit : (m.items.getD (m.items.length - 1) 0 : Int) + 1 ≤ m.sizeColumn - 3) :
    (m.items.length - 1, false) ∈
      drawRow (menu_select m ((m.items.length : Int) - 1)).items
        ((menu_select m ((m.items.length : Int) - 1)).sizeColumn - 4)
        (menu_select m ((m.items.length : Int) - 1)).first_item.toNat := by
  have hn : 0 < m.items.length := List.length_pos.mpr hne
  set n := m.items.length with hndef
  set last := m.items.getD (n - 1) 0 with hlast
  -- reduce menu_select to the single-row branch
  have hinrange : ¬ ((m.items.length : Int) - 1 < 0 ∨
      (m.items.length : Int) - 1 ≥ (m.items.length : Int)) := by omega
  have hsel : menu_select m ((m.items.length : Int) - 1)
      = { m with selected_item := (m.items.length : Int) - 1,
                 first_item := ((selLoopAux (m.sizeColumn - 3)
                   (m.items.take ((((m.items.length : Int) - 1)).toNat + 1)) 0 0 0).1 : Int) } := by
    rw [menu_select]
    rw [if_neg hinrange, if_pos hcols]
  have htoNat : (((m.items.length : Int) - 1)).toNat + 1 = n := by omega
  have htake : m.items.take ((((m.items.length : Int) - 1)).toNat + 1) = m.items := by
    rw [htoNat]
    exact List.take_of_length_le (le_refl n)
  rw [htake] at hsel
  -- the page-scan invariant over the whole list
  have hspec := selLoopAux_spec (m.sizeColumn - 3) m.items n 0 0 0
    (by omega) (le_refl 0) (by simp [rowWidth]) (Or.inl (by omega)) (Or.inl rfl)
  rw [show m.items.drop 0 = m.items from rfl] at hspec
  obtain ⟨hw, hwc, hfbound, _⟩ := hspec
  set f := (selLoopAux (m.sizeColumn - 3) m.items 0 0 0).1 with hfdef
  set colf := (selLoopAux (m.sizeColumn - 3) m.items 0 0 0).2 with hcdef
  have hfle : f ≤ n - 1 := by omega
  -- the run from f to the end decomposes as its head part plus the last item
  have hdlen : (m.items.drop f).length = n - f := by
    rw [List.length_drop]
  have hdne : m.items.drop f ≠ [] := by
    intro hnil
    rw [hnil] at hdlen
    simp at hdlen
    omega
  have hlastd : (m.items.drop f).getD ((m.items.drop f).length - 1) 0 = last := by
    rw [List.getD_eq_getElem?_getD, List.getElem?_drop, hdlen]
    have h2 : f + (n - f - 1) = n - 1 := by omega
    rw [h2, hlast, List.getD_eq_getElem?_getD]
  have hlastd2 : (m.items.drop f).getD (n - f - 1) 0 = last := by
    rw [List.getD_eq_getElem?_getD, List.getElem?_drop]
    have h2 : f + (n - f - 1) = n - 1 := by omega
    rw [h2, hlast, List.getD_eq_getElem?_getD]
  have hsplit := take_init_append_last (m.items.drop f) hdne
  rw [hlastd, hdlen] at hsplit
  have hwsplit : rowWidth (m.items.drop f)
      = rowWidth ((m.items.drop f).take (n - f - 1)) + ((last : Int) + 1) := by
    conv_lhs => rw [← hsplit]
    rw [rowWidth_append]
    simp [rowWidth]
  -- the final running width fits the budget in both cases
  have hcolf_le : colf ≤ m.sizeColumn - 3 := by
    rcases hwc with h | h
    · exact h
    · have hf : f = n - 1 := by omega
      have hdrop1 : m.items.drop f = [last] := by
        have hs := hsplit
        have h0 : n - f - 1 = 0 := by omega
        rw [h0, List.take_zero] at hs
        simpa using hs.symm
      have hr : rowWidth [last] = (last : Int) + 1 := by
        rw [rowWidth_cons]
        simp [rowWidth]
      rw [hw, hdrop1, hr]
      omega
  have hpos_le : rowWidth ((m.items.drop f).take (n - f - 1))
      ≤ (m.sizeColumn - 4) - (last : Int) := by
    have := hwsplit
    rw [hw] at hcolf_le
    omega
  -- membership in the drawing trace
  rw [hsel]
  simp only []
  rw [drawRow]
  have hfirstNat : ((f : Int)).toNat = f := Int.toNat_ofNat f
  rw [hfirstNat]
  have hmem := drawRowAux_mem (m.sizeColumn - 4) (n - 1 - f) (m.items.drop f) f 0
    (by omega)
    (by
      have hnn := rowWidth_nonneg ((m.items.drop f).take (n - f - 1))
      have h1 : n - 1 - f = n - f - 1 := by omega
      rw [h1]
      have hl : (1 : Int) ≤ (last : Int) := by exact_mod_cast hpos
      omega)
    (by
      have h1 : n - 1 - f = n - f - 1 := by omega
      rw [h1, hlastd2]
      omega)
  have h2 : f + (n - 1 - f) = n - 1 := by omega
  rw [h2] at hmem
  exact hmem

/-- Witness for the amended C8: three items of widths 2, 3, 2 in a
10-column single-row menu; selecting the last starts the page at index 1
and the last item is drawn untruncated. -/
theorem menu_select_last_fits_witness :
    ((⟨[2, 3, 2], 3, 0, 0, 0, 0, 1, 10⟩ : Menu).columns = 0 ∧
     (⟨[2, 3, 2], 3, 0, 0, 0, 0, 1, 10⟩ : Menu).items ≠ [] ∧
     1 ≤ ([2, 3, 2] : List Nat).getD (3 - 1) 0 ∧
     (([2, 3, 2] : List Nat).getD (3 - 1) 0 : Int) + 1 ≤ 10 - 3) ∧
    (([2, 3, 2] : List Nat).length - 1, false) ∈
      drawRow (menu_select ⟨[2, 3, 2], 3, 0, 0, 0, 0, 1, 10⟩
          ((([2, 3, 2] : List Nat).length : Int) - 1)).items
        ((menu_select ⟨[2, 3, 2], 3, 0, 0, 0, 0, 1, 10⟩
          ((([2, 3, 2] : List Nat).length : Int) - 1)).sizeColumn - 4)
        (menu_select ⟨[2, 3, 2], 3, 0, 0, 0, 0, 1, 10⟩
          ((([2, 3, 2] : List Nat).length : Int) - 1)).first_item.toNat := by
  refine ⟨⟨by decide, by decide, by decide, by decide⟩, ?_⟩
  exact menu_select_last_fits ⟨[2, 3, 2], 3, 0, 0, 0, 0, 1, 10⟩
    (by decide) (by decide) (by decide) (by decide)

/-- An out-of-range `menu_select` sets `selected_item` to `-1`. -/
lemma menu_select_out_of_range (m : Menu) (j : Int)
    (hj : j < 0 ∨ j ≥ (m.items.length : Int)) :
    (menu_select m j).selected_item = -1 := by
  simp only [menu_select]
  rw [if_pos hj]

/-- C10: a successful `menu_show` stores `selected_item = item_count`
(an out-of-range sentinel, distinct from the `-1` that an out-of-range
`menu_select` sets) and `first_item = 0`; consequently every drawable
candidate index `i < item_count` compares different from the selected
index, so no candidate is drawn with the highlight face
(`i == m_menu.selected_item ? fg : bg` picks `bg`). -/
theorem menu_show_selected_sentinel (dim : Coord) (statusOnTop : Bool)
    (itemLens : List Nat) (anchor : Coord) (style : MenuStyle) (m : Menu)
    (h : menu_show dim statusOnTop itemLens anchor style = some m) :
    m.selected_item = (m.items.length : Int) ∧
    m.first_item = 0 ∧
    m.selected_item ≠ -1 ∧
    (∀ i : Nat, i < m.items.length → ((i : Int) ≠ m.selected_item)) ∧
    (∀ j : Int, (j < 0 ∨ j ≥ (m.items.length : Int)) →
      (menu_select m j).selected_item = -1) := by
  rw [menu_show] at h
  by_cases hd : dim.column ≤ 2
  · rw [if_pos hd] at h
    exact absurd h (by simp)
  · rw [if_neg hd] at h
    have hm := (Option.some_inj.mp h).symm
    subst hm
    refine ⟨by simp, rfl, ?_, fun i hi => ?_, fun j hj => ?_⟩
    · show (itemLens.length : Int) ≠ -1
      omega
    · simp only [List.length_map] at hi
      show (i : Int) ≠ (itemLens.length : Int)
      omega
    · exact menu_select_out_of_range _ j hj

/-- Witness for C10: a 2-item prompt menu on a 24x80 terminal gets
`selected_item = 2` (the sentinel), `first_item = 0`, no drawable index
equals the selection, and every out-of-range select yields `-1`. -/
theorem menu_show_selected_sentinel_witness :
    menu_show ⟨24, 80⟩ false [3, 4] ⟨1, 1⟩ MenuStyle.promptStyle
      = some ⟨[3, 4], 2, 0, 15, 23, 1, 1, 80⟩ ∧
    ((⟨[3, 4], 2, 0, 15, 23, 1, 1, 80⟩ : Menu).selected_item
        = ((⟨[3, 4], 2, 0, 15, 23, 1, 1, 80⟩ : Menu).items.length : Int) ∧
      (⟨[3, 4], 2, 0, 15, 23, 1, 1, 80⟩ : Menu).first_item = 0 ∧
      (⟨[3, 4], 2, 0, 15, 23, 1, 1, 80⟩ : Menu).selected_item ≠ -1 ∧
      (∀ i : Nat, i < (⟨[3, 4], 2, 0, 15, 23, 1, 1, 80⟩ : Menu).items.length →
        ((i : Int) ≠ (⟨[3, 4], 2, 0, 15, 23, 1, 1, 80⟩ : Menu).selected_item)) ∧
      (∀ j : Int,
        (j < 0 ∨ j ≥ ((⟨[3, 4], 2, 0, 15, 23, 1, 1, 80⟩ : Menu).items.length : Int)) →
        (menu_select (⟨[3, 4], 2, 0, 15, 23, 1, 1, 80⟩ : Menu) j).selected_item = -1)) :=
  ⟨by decide, menu_show_selected_sentinel ⟨24, 80⟩ false [3, 4] ⟨1, 1⟩
    MenuStyle.promptStyle ⟨[3, 4], 2, 0, 15, 23, 1, 1, 80⟩ (by decide)⟩

end NCursesUI
